import Mathlib

/-!
# QwtSplineLocal: local spline interpolation (qwt_spline_local.cpp)

A shallow embedding of `src/trunk/qwt/src/qwt_spline_local.cpp`.

Modelling conventions

* `double` values are exact rationals (`ℚ`): every finite double is a rational
  number and the arithmetic is taken to be exact.  Division is the total division
  of `ℚ`; the only division of the file that is not guarded against a zero
  divisor is the outer one of the 4-argument `qwtHarmonicMean`.  Where that divisor
  is zero the source computes a value that is not finite, and the value of the model
  stands for nothing: the divisors are listed by `qwtHarmonicMeanDivisors`, and a
  statement about the values of the HarmonicMean slopes assumes `HarmonicMeanFinite`
  wherever it would otherwise rest on the value of a division by zero.
* `QPolygonF` is a list of points, `QVector<double>` a list of rationals.
  `QVector<double>(size)` is zero filled.  Reading `p[i]` is `pAt p i`.
* `QPainterPath` is the sequence of `moveTo` / `cubicTo` calls issued on it.
* The literals `0.5` and `1.5` are written `1 / 2` and `3 / 2`.
* A `for` loop is a left fold of its body over the list of the values taken by
  the loop counter; the mutable locals are the state of the fold.
-/

namespace Qwt

/-- A point of the plane (`QPointF`). -/
structure QPointF where
  x : ℚ
  y : ℚ
deriving DecidableEq, Repr

/-- One drawing call recorded in a painter path. -/
inductive PathElement where
  | moveTo (p : QPointF)
  | cubicTo (c1 c2 endPoint : QPointF)
deriving DecidableEq, Repr

/-- A painter path: the calls issued on it, in order. -/
abbrev QPainterPath := List PathElement

/-- An ordered sequence of points. -/
abbrev QPolygonF := List QPointF

/-- The enumeration `QwtSplineLocal::Type`, as listed by the two `switch` statements. -/
inductive SplineType where
  | Cardinal
  | ParabolicBlending
  | Akima
  | HarmonicMean
  | PChip
deriving DecidableEq, Repr

/-- The parametrization of the base class; only `ParametrizationX` is tested by `pathP`. -/
inductive Parametrization where
  | ParametrizationX
  | other (code : ℕ)
deriving DecidableEq, Repr

/-- Read access `p[i]` into the point array. -/
def pAt (points : QPolygonF) (i : ℕ) : QPointF :=
  points.getD i ⟨0, 0⟩

/-- Addition of points (`QPointF::operator+`). -/
def QPointF.add (a b : QPointF) : QPointF := ⟨a.x + b.x, a.y + b.y⟩

/-- Subtraction of points (`QPointF::operator-`). -/
def QPointF.sub (a b : QPointF) : QPointF := ⟨a.x - b.x, a.y - b.y⟩

/-- Division of a point by a scalar (`QPointF::operator/`). -/
def QPointF.divS (a : QPointF) (c : ℚ) : QPointF := ⟨a.x / c, a.y / c⟩

/-- The call `path.moveTo( p )`. -/
def QPainterPath.moveTo (path : QPainterPath) (p : QPointF) : QPainterPath :=
  path ++ [PathElement.moveTo p]

/-- The call `path.cubicTo( c1, c2, e )`. -/
def QPainterPath.cubicTo (path : QPainterPath) (c1 c2 e : QPointF) : QPainterPath :=
  path ++ [PathElement.cubicTo c1 c2 e]

/-- `qMin` of Qt. -/
def qMin (a b : ℚ) : ℚ := if a < b then a else b

/-- `qMax` of Qt. -/
def qMax (a b : ℚ) : ℚ := if a < b then b else a

/-- `qBound( min, val, max )` of Qt: `qMax( min, qMin( max, val ) )`. -/
def qBound (lo val hi : ℚ) : ℚ := qMax lo (qMin hi val)

/-- Source lines 13-17. -/
def qwtSlope (p1 p2 : QPointF) : ℚ :=
  let dx := p2.x - p1.x
  if dx ≠ 0 then (p2.y - p1.y) / dx else 0

/-- Source lines 27-35. -/
def qwtCubicToP (p1 : QPointF) (m1 : ℚ) (p2 : QPointF) (m2 : ℚ)
    (path : QPainterPath) : QPainterPath :=
  let dx := (p2.x - p1.x) / 3
  path.cubicTo ⟨p1.x + dx, p1.y + m1 * dx⟩ ⟨p2.x - dx, p2.y - m2 * dx⟩ ⟨p2.x, p2.y⟩

/-- Source lines 37-48. -/
def qwtAkima (s1 s2 s3 s4 : ℚ) : ℚ :=
  if s1 = s2 ∧ s3 = s4 then
    (1 / 2) * (s2 + s3)
  else
    let ds12 := |s2 - s1|
    let ds34 := |s4 - s3|
    (s2 * ds34 + s3 * ds12) / (ds12 + ds34)

/-- Source lines 50-60: the 4-argument overload.  The divisor of `2` is not guarded by
the source: when `dx1 / dy1 + dx2 / dy2 = 0` the source divides by zero, and the value
returned here is not what the source computes (see `qwtHarmonicMeanDivisors`). -/
def qwtHarmonicMean (dx1 dy1 dx2 dy2 : ℚ) : ℚ :=
  if decide (dy1 > 0) = decide (dy2 > 0) then
    if dy1 ≠ 0 ∧ dy2 ≠ 0 then 2 / (dx1 / dy1 + dx2 / dy2) else 0
  else 0

/-- Source lines 62-71: the 2-argument overload. -/
def qwtHarmonicMean2 (s1 s2 : ℚ) : ℚ :=
  if decide (s1 > 0) = decide (s2 > 0) then
    if s1 ≠ 0 ∧ s2 ≠ 0 then 2 / (1 / s1 + 1 / s2) else 0
  else 0

/-- Source lines 73-103; the two reference parameters are returned as a pair
`(slopeStart, slopeEnd)`. -/
def qwtLocalEndpoints (points : QPolygonF) (type : SplineType) (tension : ℚ) : ℚ × ℚ :=
  let n := points.length
  let se : ℚ × ℚ :=
    if type = SplineType.HarmonicMean then
      if n ≥ 3 then
        let s1 := qwtSlope (pAt points 0) (pAt points 1)
        let s2 := qwtSlope (pAt points 1) (pAt points 2)
        let s3 := qwtSlope (pAt points (n - 3)) (pAt points (n - 2))
        let s4 := qwtSlope (pAt points (n - 2)) (pAt points (n - 1))
        ((3 / 2) * s1 - (1 / 2) * qwtHarmonicMean2 s1 s2,
         (3 / 2) * s4 - (1 / 2) * qwtHarmonicMean2 s3 s4)
      else (0, 0)
    else
      if n ≥ 2 then
        (qwtSlope (pAt points 0) (pAt points 1),
         qwtSlope (pAt points (n - 2)) (pAt points (n - 1)))
      else (0, 0)
  (se.1 * (1 - tension), se.2 * (1 - tension))

/-- The body of the loop of `qwtPathCardinal` (source lines 119-122).  Loop state:
`(path, m1)`. -/
def cardinalPathStep (points : QPolygonF) (s : ℚ) (st : QPainterPath × ℚ) (i : ℕ) :
    QPainterPath × ℚ :=
  let m2 := s * qwtSlope (pAt points (i - 1)) (pAt points (i + 1))
  (qwtCubicToP (pAt points (i - 1)) st.2 (pAt points i) m2 st.1, m2)

/-- Source lines 105-128. -/
def qwtPathCardinal (points : QPolygonF) (tension slopeStart slopeEnd : ℚ) : QPainterPath :=
  let s := 1 - tension
  let size := points.length
  let path : QPainterPath := QPainterPath.moveTo [] (pAt points 0)
  let st := (List.range' 1 (size - 2)).foldl (cardinalPathStep points s) (path, slopeStart)
  qwtCubicToP (pAt points (size - 2)) st.2 (pAt points (size - 1)) slopeEnd st.1

/-- The body of the loop of `qwtSlopesCardinal` (source line 144). -/
def cardinalSlopesStep (points : QPolygonF) (s : ℚ) (md : List ℚ) (i : ℕ) : List ℚ :=
  md.set i (s * qwtSlope (pAt points (i - 1)) (pAt points (i + 1)))

/-- Source lines 130-149. -/
def qwtSlopesCardinal (points : QPolygonF) (tension slopeStart slopeEnd : ℚ) : List ℚ :=
  let s := 1 - tension
  let size := points.length
  let md : List ℚ := List.replicate size 0
  let md := md.set 0 slopeStart
  let md := (List.range' 1 (size - 2)).foldl (cardinalSlopesStep points s) md
  md.set (size - 1) slopeEnd

/-- The mutable locals of the loop of `qwtPathAkima`. -/
structure AkimaPathState where
  path : QPainterPath
  slope1 : ℚ
  slope2 : ℚ
  slope3 : ℚ
  m1 : ℚ

/-- The body of the loop of `qwtPathAkima` (source lines 170-179). -/
def akimaPathStep (points : QPolygonF) (s : ℚ) (st : AkimaPathState) (i : ℕ) :
    AkimaPathState :=
  let slope4 := qwtSlope (pAt points (i + 2)) (pAt points (i + 3))
  let m2 := s * qwtAkima st.slope1 st.slope2 st.slope3 slope4
  { path := qwtCubicToP (pAt points i) st.m1 (pAt points (i + 1)) m2 st.path
    slope1 := st.slope2
    slope2 := st.slope3
    slope3 := slope4
    m1 := m2 }

/-- Source lines 151-188. -/
def qwtPathAkima (points : QPolygonF) (tension slopeStart slopeEnd : ℚ) : QPainterPath :=
  let s := 1 - tension
  let size := points.length
  let path : QPainterPath := QPainterPath.moveTo [] (pAt points 0)
  let slope1 := slopeStart
  let slope2 := qwtSlope (pAt points 0) (pAt points 1)
  let slope3 := qwtSlope (pAt points 1) (pAt points 2)
  let m1 := s * slope1
  let st := (List.range' 0 (size - 3)).foldl (akimaPathStep points s)
    { path := path, slope1 := slope1, slope2 := slope2, slope3 := slope3, m1 := m1 }
  let m2 := s * qwtAkima st.slope1 st.slope2 st.slope3 slopeEnd
  let path := qwtCubicToP (pAt points (size - 3)) st.m1 (pAt points (size - 2)) m2 st.path
  qwtCubicToP (pAt points (size - 2)) m2 (pAt points (size - 1)) slopeEnd path

/-- The mutable locals of the loop of `qwtSlopesAkima`. -/
structure AkimaSlopesState where
  md : List ℚ
  slope1 : ℚ
  slope2 : ℚ
  slope3 : ℚ

/-- The body of the loop of `qwtSlopesAkima` (source lines 210-216). -/
def akimaSlopesStep (points : QPolygonF) (s : ℚ) (st : AkimaSlopesState) (i : ℕ) :
    AkimaSlopesState :=
  let slope4 := qwtSlope (pAt points (i + 2)) (pAt points (i + 3))
  { md := st.md.set (i + 1) (s * qwtAkima st.slope1 st.slope2 st.slope3 slope4)
    slope1 := st.slope2
    slope2 := st.slope3
    slope3 := slope4 }

/-- Source lines 190-223. -/
def qwtSlopesAkima (points : QPolygonF) (tension slopeStart slopeEnd : ℚ) : List ℚ :=
  let s := 1 - tension
  let size := points.length
  let md : List ℚ := List.replicate size 0
  let slope1 := slopeStart
  let slope2 := qwtSlope (pAt points 0) (pAt points 1)
  let slope3 := qwtSlope (pAt points 1) (pAt points 2)
  let md := md.set 0 (s * slope1)
  let st := (List.range' 0 (size - 3)).foldl (akimaSlopesStep points s)
    { md := md, slope1 := slope1, slope2 := slope2, slope3 := slope3 }
  let md := st.md.set (size - 2) (s * qwtAkima st.slope1 st.slope2 st.slope3 slopeEnd)
  md.set (size - 1) slopeEnd

/-- The mutable locals of the loop of `qwtSlopesHarmonicMean`. -/
structure HarmonicSlopesState where
  m : List ℚ
  dx1 : ℚ
  dy1 : ℚ

/-- The body of the loop of `qwtSlopesHarmonicMean` (source lines 242-248): the
write goes to index `1` in every iteration. -/
def harmonicSlopesStep (points : QPolygonF) (s : ℚ) (st : HarmonicSlopesState) (i : ℕ) :
    HarmonicSlopesState :=
  let dx2 := (pAt points (i + 1)).x - (pAt points i).x
  let dy2 := (pAt points (i + 1)).y - (pAt points i).y
  { m := st.m.set 1 (s * qwtHarmonicMean st.dx1 st.dy1 dx2 dy2)
    dx1 := dx2
    dy1 := dy2 }

/-- Source lines 225-254. -/
def qwtSlopesHarmonicMean (points : QPolygonF) (tension slopeStart slopeEnd : ℚ) : List ℚ :=
  let s := 1 - tension
  let size := points.length
  let m : List ℚ := List.replicate size 0
  let dx1 := (pAt points 1).x - (pAt points 0).x
  let dy1 := (pAt points 1).y - (pAt points 0).y
  let m := m.set 0 slopeStart
  let st := (List.range' 1 (size - 2)).foldl (harmonicSlopesStep points s)
    { m := m, dx1 := dx1, dy1 := dy1 }
  st.m.set (size - 1) slopeEnd

/-- The mutable locals of the loop of `qwtPathHarmonicMean`. -/
structure HarmonicPathState where
  path : QPainterPath
  dx1 : ℚ
  dy1 : ℚ
  m1 : ℚ

/-- The body of the loop of `qwtPathHarmonicMean` (source lines 273-282). -/
def harmonicPathStep (points : QPolygonF) (s : ℚ) (st : HarmonicPathState) (i : ℕ) :
    HarmonicPathState :=
  let dx2 := (pAt points (i + 1)).x - (pAt points i).x
  let dy2 := (pAt points (i + 1)).y - (pAt points i).y
  let m2 := s * qwtHarmonicMean st.dx1 st.dy1 dx2 dy2
  { path := st.path.cubicTo
      ((pAt points (i - 1)).add (QPointF.divS ⟨st.dx1, st.dx1 * st.m1⟩ 3))
      ((pAt points i).sub (QPointF.divS ⟨st.dx1, st.dx1 * m2⟩ 3))
      (pAt points i)
    dx1 := dx2
    dy1 := dy2
    m1 := m2 }

/-- Source lines 256-289. -/
def qwtPathHarmonicMean (points : QPolygonF) (tension slopeStart slopeEnd : ℚ) :
    QPainterPath :=
  let s := 1 - tension
  let size := points.length
  let path : QPainterPath := QPainterPath.moveTo [] (pAt points 0)
  let dx1 := (pAt points 1).x - (pAt points 0).x
  let dy1 := (pAt points 1).y - (pAt points 0).y
  let st := (List.range' 1 (size - 2)).foldl (harmonicPathStep points s)
    { path := path, dx1 := dx1, dy1 := dy1, m1 := slopeStart }
  st.path.cubicTo
    ((pAt points (size - 2)).add (QPointF.divS ⟨st.dx1, st.dx1 * st.m1⟩ 3))
    ((pAt points (size - 1)).sub (QPointF.divS ⟨st.dx1, st.dx1 * slopeEnd⟩ 3))
    (pAt points (size - 1))

/-- The object `QwtSplineLocal`: its two members, the parametrization of the base
class and the inherited `QwtSplineC1::pathP`, which is not part of the sources and
is carried as a field. -/
structure QwtSplineLocal where
  d_type : SplineType
  d_tension : ℚ
  parametrization : Parametrization
  c1PathP : QPolygonF → QPainterPath

/-- Source lines 302-305. -/
def QwtSplineLocal.setTension (self : QwtSplineLocal) (tension : ℚ) : QwtSplineLocal :=
  { self with d_tension := qBound 0 tension 1 }

/-- Source lines 307-310. -/
def QwtSplineLocal.tension (self : QwtSplineLocal) : ℚ :=
  self.d_tension

/-- Source lines 291-296: the constructor; the state of the base class is passed in. -/
def QwtSplineLocal.new (type : SplineType) (tension : ℚ)
    (parametrization : Parametrization) (c1PathP : QPolygonF → QPainterPath) :
    QwtSplineLocal :=
  QwtSplineLocal.setTension
    { d_type := type, d_tension := 0, parametrization := parametrization,
      c1PathP := c1PathP }
    tension

/-- Source lines 325-379. -/
def QwtSplineLocal.pathClampedX (self : QwtSplineLocal) (points : QPolygonF)
    (slopeStart slopeEnd : ℚ) : QPainterPath :=
  let path : QPainterPath := []
  let size := points.length
  if size = 0 then path
  else if size = 1 then path.moveTo (pAt points 0)
  else if size = 2 then
    qwtCubicToP (pAt points 0) slopeStart (pAt points 1) slopeEnd
      (path.moveTo (pAt points 0))
  else
    match self.d_type with
    | SplineType.Cardinal => qwtPathCardinal points self.d_tension slopeStart slopeEnd
    | SplineType.ParabolicBlending => path
    | SplineType.Akima => qwtPathAkima points self.d_tension slopeStart slopeEnd
    | SplineType.HarmonicMean => qwtPathHarmonicMean points self.d_tension slopeStart slopeEnd
    | SplineType.PChip => path

/-- Source lines 312-323. -/
def QwtSplineLocal.pathP (self : QwtSplineLocal) (points : QPolygonF) : QPainterPath :=
  if self.parametrization = Parametrization.ParametrizationX then
    let se := qwtLocalEndpoints points self.d_type self.d_tension
    self.pathClampedX points se.1 se.2
  else
    self.c1PathP points

/-- Source lines 389-439. -/
def QwtSplineLocal.slopesClampedX (self : QwtSplineLocal) (points : QPolygonF)
    (slopeStart slopeEnd : ℚ) : List ℚ :=
  let size := points.length
  if size ≤ 1 then []
  else
    let m : List ℚ := []
    if size = 2 then
      let m : List ℚ := List.replicate 2 0
      let m := m.set 0 slopeStart
      m.set 1 slopeEnd
    else
      match self.d_type with
      | SplineType.Cardinal => qwtSlopesCardinal points self.d_tension slopeStart slopeEnd
      | SplineType.ParabolicBlending => m
      | SplineType.Akima => qwtSlopesAkima points self.d_tension slopeStart slopeEnd
      | SplineType.HarmonicMean =>
          qwtSlopesHarmonicMean points self.d_tension slopeStart slopeEnd
      | SplineType.PChip => m

/-- Source lines 381-387. -/
def QwtSplineLocal.slopesX (self : QwtSplineLocal) (points : QPolygonF) : List ℚ :=
  let se := qwtLocalEndpoints points self.d_type self.d_tension
  self.slopesClampedX points se.1 se.2

/-! ## Specification vocabulary -/

/-- The path is a move to `p[0]` followed by `k` cubic segments, segment `i` ending in `p[i+1]`. -/
def ChainInv (points : QPolygonF) (k : ℕ) (path : QPainterPath) : Prop :=
  ∃ segs : List PathElement,
    path = PathElement.moveTo (pAt points 0) :: segs ∧ segs.length = k ∧
      ∀ i, i < k → ∃ c1 c2, segs[i]? = some (PathElement.cubicTo c1 c2 (pAt points (i + 1)))

/-- The secant slope of the segment from `p[k]` to `p[k+1]`. -/
def secantAt (points : QPolygonF) (k : ℕ) : ℚ :=
  qwtSlope (pAt points k) (pAt points (k + 1))

/-- A spline object under x-parametrization with the given type and stored tension. -/
def splineX (type : SplineType) (tension : ℚ) : QwtSplineLocal :=
  { d_type := type, d_tension := tension,
    parametrization := Parametrization.ParametrizationX, c1PathP := fun _ => [] }

/-- The four points `(0,0), (1,1), (2,0), (3,1)`. -/
def zigzag : QPolygonF := [⟨0, 0⟩, ⟨1, 1⟩, ⟨2, 0⟩, ⟨3, 1⟩]

/-- The three collinear points `(0,0), (1,1), (2,2)`. -/
def line3 : QPolygonF := [⟨0, 0⟩, ⟨1, 1⟩, ⟨2, 2⟩]

/-- The three points `(0,0), (1,1), (2,4)`. -/
def bend : QPolygonF := [⟨0, 0⟩, ⟨1, 1⟩, ⟨2, 4⟩]

/-- The four points `(0,0), (1,1), (2,3), (3,7)`: increasing, with increasing increments. -/
def convexRun : QPolygonF := [⟨0, 0⟩, ⟨1, 1⟩, ⟨2, 3⟩, ⟨3, 7⟩]

/-- The four points `(0,0), (1,1), (2,0), (3,-1)`: a local maximum at index 1. -/
def peak : QPolygonF := [⟨0, 0⟩, ⟨1, 1⟩, ⟨2, 0⟩, ⟨3, -1⟩]

/-- The five points `(0,0), (1,1), (2,4), (3,5), (4,9)`. -/
def run5 : QPolygonF := [⟨0, 0⟩, ⟨1, 1⟩, ⟨2, 4⟩, ⟨3, 5⟩, ⟨4, 9⟩]

/-- The signed harmonic mean in the words of the specification: `2/(1/a + 1/b)` when
`a` and `b` are nonzero with the same sign, `0` otherwise. -/
def harmonicMeanSpec (a b : ℚ) : ℚ :=
  if (0 < a ∧ 0 < b) ∨ (a < 0 ∧ b < 0) then 2 / (1 / a + 1 / b) else 0

/-- The Hermite-to-Bezier rule in the words of the specification: the cubic from `p1`
to `p2` with control points `p1 + (dx, m1 * dx)` and `p2 - (dx, m2 * dx)`, where
`dx = (p2.x - p1.x) / 3`. -/
def hermiteSegment (p1 : QPointF) (m1 : ℚ) (p2 : QPointF) (m2 : ℚ) : PathElement :=
  let dx := (p2.x - p1.x) / 3
  PathElement.cubicTo (p1.add ⟨dx, m1 * dx⟩) (p2.sub ⟨dx, m2 * dx⟩) p2

/-- A move to `p[0]` followed by the Hermite segments of the first `k` point pairs, with
the slopes read from `m`. -/
def hermitePrefix (points : QPolygonF) (m : List ℚ) (k : ℕ) : QPainterPath :=
  PathElement.moveTo (pAt points 0) ::
    (List.range k).map (fun i =>
      hermiteSegment (pAt points i) (m.getD i 0) (pAt points (i + 1)) (m.getD (i + 1) 0))

/-- The generic Hermite-to-Bezier chain of a point sequence of length `n` for the slope
vector `m`: a move to `p[0]` followed by one Hermite segment for each `i` in `0..n-2`. -/
def hermiteChain (points : QPolygonF) (m : List ℚ) : QPainterPath :=
  hermitePrefix points m (points.length - 1)

/-- The path obtained by moving to `p[0]` and then applying
`qwtCubicToP( p[i], m[i], p[i+1], m[i+1], path )` for each `i` in `0..n-2`. -/
def cubicChain (points : QPolygonF) (m : List ℚ) : QPainterPath :=
  (List.range' 0 (points.length - 1)).foldl
    (fun path i =>
      qwtCubicToP (pAt points i) (m.getD i 0) (pAt points (i + 1)) (m.getD (i + 1) 0) path)
    (QPainterPath.moveTo [] (pAt points 0))

/-- The HarmonicMean slope vector in the words of the specification: the boundary slopes
at both ends and `(1 - t) * H(p[i] - p[i-1], p[i+1] - p[i])` at every interior index. -/
def harmonicMeanSlopesSpec (points : QPolygonF) (t slopeStart slopeEnd : ℚ) : List ℚ :=
  (List.range points.length).map (fun i =>
    if i = 0 then slopeStart
    else if i + 1 = points.length then slopeEnd
    else (1 - t) * qwtHarmonicMean
      ((pAt points i).x - (pAt points (i - 1)).x) ((pAt points i).y - (pAt points (i - 1)).y)
      ((pAt points (i + 1)).x - (pAt points i).x) ((pAt points (i + 1)).y - (pAt points i).y))

/-- The point `c` lies on the straight line through `a` and `b`. -/
def onLine (a b c : QPointF) : Prop :=
  (b.x - a.x) * (c.y - a.y) = (b.y - a.y) * (c.x - a.x)

/-- The divisors of the divisions evaluated by `qwtSlope` (source line 16). -/
def qwtSlopeDivisors (p1 p2 : QPointF) : List ℚ :=
  let dx := p2.x - p1.x
  if dx ≠ 0 then [dx] else []

/-- The divisors of the divisions evaluated by `qwtAkima` (source line 47). -/
def qwtAkimaDivisors (s1 s2 s3 s4 : ℚ) : List ℚ :=
  if s1 = s2 ∧ s3 = s4 then []
  else [|s2 - s1| + |s4 - s3|]

/-- The divisors of the divisions evaluated by the 4-argument `qwtHarmonicMean`
(source line 56), in evaluation order: `dy1`, `dy2` and the divisor of `2.0`. -/
def qwtHarmonicMeanDivisors (dx1 dy1 dx2 dy2 : ℚ) : List ℚ :=
  if decide (dy1 > 0) = decide (dy2 > 0) then
    if dy1 ≠ 0 ∧ dy2 ≠ 0 then [dy1, dy2, dx1 / dy1 + dx2 / dy2] else []
  else []

/-- The divisors of the divisions evaluated by the 2-argument `qwtHarmonicMean`
(source line 67): `s1`, `s2` and the divisor of `2`. -/
def qwtHarmonicMean2Divisors (s1 s2 : ℚ) : List ℚ :=
  if decide (s1 > 0) = decide (s2 > 0) then
    if s1 ≠ 0 ∧ s2 ≠ 0 then [s1, s2, 1 / s1 + 1 / s2] else []
  else []

/-- No call of the 4-argument `qwtHarmonicMean` made for an interior point of `points`
(by the loops of `qwtSlopesHarmonicMean` and `qwtPathHarmonicMean`, with the increments
`p[i] - p[i-1]` and `p[i+1] - p[i]`) divides by zero. -/
def HarmonicMeanFinite (points : QPolygonF) : Prop :=
  ∀ i, 1 ≤ i → i + 1 < points.length →
    ∀ d ∈ qwtHarmonicMeanDivisors
      ((pAt points i).x - (pAt points (i - 1)).x) ((pAt points i).y - (pAt points (i - 1)).y)
      ((pAt points (i + 1)).x - (pAt points i).x) ((pAt points (i + 1)).y - (pAt points i).y),
      d ≠ 0

/-- The two points `(0,0), (3,3)`. -/
def diagonal : QPolygonF := [⟨0, 0⟩, ⟨3, 3⟩]

/-- The two points `(0,0), (1,1)`. -/
def unitStep : QPolygonF := [⟨0, 0⟩, ⟨1, 1⟩]

/-- The three points `(0,0), (0,1), (0,2)`, all with the same x-coordinate. -/
def vertical : QPolygonF := [⟨0, 0⟩, ⟨0, 1⟩, ⟨0, 2⟩]

/-- The four collinear points `(0,0), (1,2), (2,4), (3,6)`. -/
def line4 : QPolygonF := [⟨0, 0⟩, ⟨1, 2⟩, ⟨2, 4⟩, ⟨3, 6⟩]

/-! ## Loops and their invariants -/

/-- Loop-invariant rule for a counted loop. -/
theorem foldl_range'_inv {σ : Type} (Inv : ℕ → σ → Prop) (f : σ → ℕ → σ) :
    ∀ (k a : ℕ) (st : σ), Inv a st →
      (∀ i st, a ≤ i → i < a + k → Inv i st → Inv (i + 1) (f st i)) →
      Inv (a + k) ((List.range' a k).foldl f st) := by
  intro k
  induction k with
  | zero => intro a st h0 _; simpa using h0
  | succ k ih =>
    intro a st h0 hstep
    rw [List.range'_succ, List.foldl_cons]
    have h1 : Inv (a + 1) (f st a) := hstep a st (le_refl a) (by omega) h0
    have h2 := ih (a + 1) (f st a) h1
      (fun i st hi hlt hinv => hstep i st (by omega) (by omega) hinv)
    have e : a + 1 + k = a + (k + 1) := by omega
    rw [e] at h2
    exact h2

theorem chainInv_moveTo (points : QPolygonF) :
    ChainInv points 0 (QPainterPath.moveTo [] (pAt points 0)) :=
  ⟨[], by simp [QPainterPath.moveTo], rfl, fun i hi => absurd hi (Nat.not_lt_zero i)⟩

theorem chainInv_cubicTo (points : QPolygonF) (k j : ℕ) (path : QPainterPath) (c1 c2 : QPointF)
    (hj : j = k + 1) (h : ChainInv points k path) :
    ChainInv points j (path.cubicTo c1 c2 (pAt points j)) := by
  subst hj
  obtain ⟨segs, hp, hl, hs⟩ := h
  refine ⟨segs ++ [PathElement.cubicTo c1 c2 (pAt points (k + 1))], ?_, ?_, ?_⟩
  · simp [QPainterPath.cubicTo, hp]
  · simp [hl]
  · intro i hi
    by_cases hik : i < k
    · obtain ⟨a, b, hab⟩ := hs i hik
      exact ⟨a, b, by rw [List.getElem?_append_left (by omega), hab]⟩
    · have e : i = k := by omega
      subst e
      exact ⟨c1, c2, by rw [List.getElem?_append_right (by omega)]; simp [hl]⟩

theorem chainInv_qwtCubicToP (points : QPolygonF) (k j : ℕ) (path : QPainterPath) (p1 : QPointF)
    (m1 m2 : ℚ) (hj : j = k + 1) (h : ChainInv points k path) :
    ChainInv points j (qwtCubicToP p1 m1 (pAt points j) m2 path) :=
  chainInv_cubicTo points k j path _ _ hj h

theorem qwtPathCardinal_chain (points : QPolygonF) (t a b : ℚ) (hn : 3 ≤ points.length) :
    ChainInv points (points.length - 1) (qwtPathCardinal points t a b) := by
  dsimp only [qwtPathCardinal]
  have h := foldl_range'_inv (fun i (st : QPainterPath × ℚ) => ChainInv points (i - 1) st.1)
    (cardinalPathStep points (1 - t))
    (points.length - 2) 1 (QPainterPath.moveTo [] (pAt points 0), a)
    (chainInv_moveTo points)
    (fun i st hi _ hinv =>
      chainInv_qwtCubicToP points (i - 1) i st.1 _ _ _ (by omega) hinv)
  exact chainInv_qwtCubicToP points (points.length - 2) _ _ _ _ _ (by omega)
    (by simpa using h)

theorem qwtPathAkima_chain (points : QPolygonF) (t a b : ℚ) (hn : 3 ≤ points.length) :
    ChainInv points (points.length - 1) (qwtPathAkima points t a b) := by
  dsimp only [qwtPathAkima]
  have h := foldl_range'_inv (fun i (st : AkimaPathState) => ChainInv points i st.path)
    (akimaPathStep points (1 - t))
    (points.length - 3) 0
    { path := QPainterPath.moveTo [] (pAt points 0), slope1 := a,
      slope2 := qwtSlope (pAt points 0) (pAt points 1),
      slope3 := qwtSlope (pAt points 1) (pAt points 2), m1 := (1 - t) * a }
    (chainInv_moveTo points)
    (fun i st _ _ hinv =>
      chainInv_qwtCubicToP points i (i + 1) st.path _ _ _ rfl hinv)
  refine chainInv_qwtCubicToP points (points.length - 2) _ _ _ _ _ (by omega) ?_
  exact chainInv_qwtCubicToP points (points.length - 3) _ _ _ _ _ (by omega)
    (by simpa using h)

theorem qwtPathHarmonicMean_chain (points : QPolygonF) (t a b : ℚ) (hn : 3 ≤ points.length) :
    ChainInv points (points.length - 1) (qwtPathHarmonicMean points t a b) := by
  dsimp only [qwtPathHarmonicMean]
  have h := foldl_range'_inv (fun i (st : HarmonicPathState) => ChainInv points (i - 1) st.path)
    (harmonicPathStep points (1 - t))
    (points.length - 2) 1
    { path := QPainterPath.moveTo [] (pAt points 0),
      dx1 := (pAt points 1).x - (pAt points 0).x,
      dy1 := (pAt points 1).y - (pAt points 0).y, m1 := a }
    (chainInv_moveTo points)
    (fun i st hi _ hinv =>
      chainInv_cubicTo points (i - 1) i st.path _ _ (by omega) hinv)
  exact chainInv_cubicTo points (points.length - 2) _ _ _ _ (by omega)
    (by simpa using h)

theorem qwtSlopesCardinal_length (points : QPolygonF) (t a b : ℚ) :
    (qwtSlopesCardinal points t a b).length = points.length := by
  dsimp only [qwtSlopesCardinal]
  have h := foldl_range'_inv (fun _ (md : List ℚ) => md.length = points.length)
    (cardinalSlopesStep points (1 - t)) (points.length - 2) 1
    ((List.replicate points.length (0 : ℚ)).set 0 a) (by simp)
    (fun i md _ _ hinv => by simpa [cardinalSlopesStep] using hinv)
  simpa using h

theorem qwtSlopesAkima_length (points : QPolygonF) (t a b : ℚ) :
    (qwtSlopesAkima points t a b).length = points.length := by
  dsimp only [qwtSlopesAkima]
  have h := foldl_range'_inv (fun _ (st : AkimaSlopesState) => st.md.length = points.length)
    (akimaSlopesStep points (1 - t)) (points.length - 3) 0
    { md := (List.replicate points.length (0 : ℚ)).set 0 ((1 - t) * a), slope1 := a,
      slope2 := qwtSlope (pAt points 0) (pAt points 1),
      slope3 := qwtSlope (pAt points 1) (pAt points 2) } (by simp)
    (fun i st _ _ hinv => by simpa [akimaSlopesStep] using hinv)
  simpa using h

theorem qwtSlopesHarmonicMean_length (points : QPolygonF) (t a b : ℚ) :
    (qwtSlopesHarmonicMean points t a b).length = points.length := by
  dsimp only [qwtSlopesHarmonicMean]
  have h := foldl_range'_inv (fun _ (st : HarmonicSlopesState) => st.m.length = points.length)
    (harmonicSlopesStep points (1 - t)) (points.length - 2) 1
    { m := (List.replicate points.length (0 : ℚ)).set 0 a,
      dx1 := (pAt points 1).x - (pAt points 0).x,
      dy1 := (pAt points 1).y - (pAt points 0).y } (by simp)
    (fun i st _ _ hinv => by simpa [harmonicSlopesStep] using hinv)
  simpa using h

theorem pAt_of_getElem? (points : QPolygonF) (i : ℕ) (q : QPointF) (h : points[i]? = some q) :
    pAt points i = q := by
  simp [pAt, h]

theorem pathClampedX_chain (self : QwtSplineLocal) (points : QPolygonF) (a b : ℚ)
    (himpl : self.d_type = SplineType.Cardinal ∨ self.d_type = SplineType.Akima ∨
      self.d_type = SplineType.HarmonicMean)
    (hn : 2 ≤ points.length) :
    ChainInv points (points.length - 1) (self.pathClampedX points a b) := by
  unfold QwtSplineLocal.pathClampedX
  have h0 : points.length ≠ 0 := by omega
  have h1 : points.length ≠ 1 := by omega
  by_cases h2 : points.length = 2
  · simp only [h0, h1, h2, if_true, if_false]
    exact chainInv_qwtCubicToP points 0 1 _ _ _ _ rfl (chainInv_moveTo points)
  · have h3 : 3 ≤ points.length := by omega
    rcases himpl with h | h | h
    · simpa [h, h0, h1, h2] using qwtPathCardinal_chain points self.d_tension a b h3
    · simpa [h, h0, h1, h2] using qwtPathAkima_chain points self.d_tension a b h3
    · simpa [h, h0, h1, h2] using qwtPathHarmonicMean_chain points self.d_tension a b h3

theorem qBound_eq (lo val hi : ℚ) : qBound lo val hi = max lo (min val hi) := by
  unfold qBound qMax qMin
  rcases lt_or_le hi val with h | h
  · rw [if_pos h, min_eq_right h.le]
    rcases lt_or_le lo hi with h' | h'
    · rw [if_pos h', max_eq_right h'.le]
    · rw [if_neg (not_lt.mpr h'), max_eq_left h']
  · rw [if_neg (not_lt.mpr h), min_eq_left h]
    rcases lt_or_le lo val with h' | h'
    · rw [if_pos h', max_eq_right h'.le]
    · rw [if_neg (not_lt.mpr h'), max_eq_left h']

/-! ### Entries of the slope vectors -/

/-- The entries of the Cardinal slope vector. -/
theorem qwtSlopesCardinal_getElem? (points : QPolygonF) (t a b : ℚ) (hn : 3 ≤ points.length) :
    (qwtSlopesCardinal points t a b)[0]? = some a ∧
    (∀ j, 1 ≤ j → j + 1 < points.length →
      (qwtSlopesCardinal points t a b)[j]? =
        some ((1 - t) * qwtSlope (pAt points (j - 1)) (pAt points (j + 1)))) ∧
    (qwtSlopesCardinal points t a b)[points.length - 1]? = some b := by
  dsimp only [qwtSlopesCardinal]
  have h := foldl_range'_inv
    (fun i (md : List ℚ) => md.length = points.length ∧ md[0]? = some a ∧
      ∀ j, 1 ≤ j → j < i →
        md[j]? = some ((1 - t) * qwtSlope (pAt points (j - 1)) (pAt points (j + 1))))
    (cardinalSlopesStep points (1 - t)) (points.length - 2) 1
    ((List.replicate points.length (0 : ℚ)).set 0 a)
    ⟨by simp, by rw [List.getElem?_set_self (by simp; omega)], fun j h1 h2 => by omega⟩
    (by
      rintro i md hi hlt ⟨hl, h0, hj⟩
      refine ⟨by simp [cardinalSlopesStep, hl], ?_, ?_⟩
      · rw [cardinalSlopesStep, List.getElem?_set_ne (by omega)]; exact h0
      · intro j h1 h2
        by_cases e : j = i
        · subst e
          rw [cardinalSlopesStep, List.getElem?_set_self (by omega)]
        · rw [cardinalSlopesStep, List.getElem?_set_ne (by omega)]
          exact hj j h1 (by omega))
  obtain ⟨hl, h0, hj⟩ := h
  refine ⟨?_, ?_, ?_⟩
  · rw [List.getElem?_set_ne (by omega)]; exact h0
  · intro j h1 h2
    rw [List.getElem?_set_ne (by omega)]
    exact hj j h1 (by omega)
  · rw [List.getElem?_set_self (by omega)]

/-- The entries of the HarmonicMean slope vector: the loop writes index `1` only, so
index `1` holds the value computed for the last interior point and the other interior
entries keep their initial `0`. -/
theorem qwtSlopesHarmonicMean_getElem? (points : QPolygonF) (t a b : ℚ)
    (hn : 3 ≤ points.length) :
    (qwtSlopesHarmonicMean points t a b)[0]? = some a ∧
    (qwtSlopesHarmonicMean points t a b)[1]? =
      some ((1 - t) * qwtHarmonicMean
        ((pAt points (points.length - 2)).x - (pAt points (points.length - 3)).x)
        ((pAt points (points.length - 2)).y - (pAt points (points.length - 3)).y)
        ((pAt points (points.length - 1)).x - (pAt points (points.length - 2)).x)
        ((pAt points (points.length - 1)).y - (pAt points (points.length - 2)).y)) ∧
    (∀ j, 2 ≤ j → j + 1 < points.length →
      (qwtSlopesHarmonicMean points t a b)[j]? = some 0) ∧
    (qwtSlopesHarmonicMean points t a b)[points.length - 1]? = some b := by
  dsimp only [qwtSlopesHarmonicMean]
  have h := foldl_range'_inv
    (fun i (st : HarmonicSlopesState) => st.m.length = points.length ∧
      st.dx1 = (pAt points i).x - (pAt points (i - 1)).x ∧
      st.dy1 = (pAt points i).y - (pAt points (i - 1)).y ∧
      st.m[0]? = some a ∧
      (2 ≤ i → st.m[1]? = some ((1 - t) * qwtHarmonicMean
        ((pAt points (i - 1)).x - (pAt points (i - 2)).x)
        ((pAt points (i - 1)).y - (pAt points (i - 2)).y)
        ((pAt points i).x - (pAt points (i - 1)).x)
        ((pAt points i).y - (pAt points (i - 1)).y))) ∧
      ∀ j, 2 ≤ j → j < points.length → st.m[j]? = some 0)
    (harmonicSlopesStep points (1 - t)) (points.length - 2) 1
    { m := (List.replicate points.length (0 : ℚ)).set 0 a,
      dx1 := (pAt points 1).x - (pAt points 0).x,
      dy1 := (pAt points 1).y - (pAt points 0).y }
    ⟨by simp, rfl, rfl, by rw [List.getElem?_set_self (by simp; omega)],
      fun h => by omega,
      fun j h1 h2 => by
        rw [List.getElem?_set_ne (by omega), List.getElem?_replicate_of_lt h2]⟩
    (by
      rintro i st hi hlt ⟨hl, hdx, hdy, h0, h1, hj⟩
      refine ⟨by simp [harmonicSlopesStep, hl], rfl, rfl, ?_, ?_, ?_⟩
      · simp only [harmonicSlopesStep]
        rw [List.getElem?_set_ne (by omega)]; exact h0
      · intro _
        simp only [harmonicSlopesStep]
        rw [List.getElem?_set_self (by omega), hdx, hdy]
        have e : i + 1 - 2 = i - 1 := by omega
        simp only [e, Nat.add_sub_cancel]
      · intro j hj1 hj2
        simp only [harmonicSlopesStep]
        rw [List.getElem?_set_ne (by omega)]
        exact hj j hj1 hj2)
  obtain ⟨hl, -, -, h0, h1, hj⟩ := h
  have e1 : 1 + (points.length - 2) = points.length - 1 := by omega
  have e2 : points.length - 1 - 1 = points.length - 2 := by omega
  have e3 : points.length - 1 - 2 = points.length - 3 := by omega
  rw [e1] at h1
  rw [e2, e3] at h1
  refine ⟨?_, ?_, ?_, ?_⟩
  · rw [List.getElem?_set_ne (by omega)]; exact h0
  · rw [List.getElem?_set_ne (by omega)]; exact h1 (by omega)
  · intro j hj1 hj2
    rw [List.getElem?_set_ne (by omega)]
    exact hj j hj1 (by omega)
  · rw [List.getElem?_set_self (by omega)]

/-! ### The Akima window -/

/-- The entries of the Akima slope vector.  The window of the first interior slope
starts with the boundary slope `a`, the window of the last one ends with `b`. -/
theorem qwtSlopesAkima_getElem? (points : QPolygonF) (t a b : ℚ) (hn : 3 ≤ points.length) :
    (qwtSlopesAkima points t a b)[0]? = some ((1 - t) * a) ∧
    (∀ j, 1 ≤ j → j + 2 < points.length →
      (qwtSlopesAkima points t a b)[j]? =
        some ((1 - t) * qwtAkima (if j = 1 then a else secantAt points (j - 2))
          (secantAt points (j - 1)) (secantAt points j) (secantAt points (j + 1)))) ∧
    (qwtSlopesAkima points t a b)[points.length - 2]? =
      some ((1 - t) * qwtAkima
        (if points.length = 3 then a else secantAt points (points.length - 4))
        (secantAt points (points.length - 3)) (secantAt points (points.length - 2)) b) ∧
    (qwtSlopesAkima points t a b)[points.length - 1]? = some b := by
  dsimp only [qwtSlopesAkima]
  have h := foldl_range'_inv
    (fun i (st : AkimaSlopesState) => st.md.length = points.length ∧
      st.slope1 = (if i = 0 then a else secantAt points (i - 1)) ∧
      st.slope2 = secantAt points i ∧ st.slope3 = secantAt points (i + 1) ∧
      st.md[0]? = some ((1 - t) * a) ∧
      ∀ j, 1 ≤ j → j ≤ i →
        st.md[j]? = some ((1 - t) * qwtAkima (if j = 1 then a else secantAt points (j - 2))
          (secantAt points (j - 1)) (secantAt points j) (secantAt points (j + 1))))
    (akimaSlopesStep points (1 - t)) (points.length - 3) 0
    { md := (List.replicate points.length (0 : ℚ)).set 0 ((1 - t) * a), slope1 := a,
      slope2 := qwtSlope (pAt points 0) (pAt points 1),
      slope3 := qwtSlope (pAt points 1) (pAt points 2) }
    ⟨by simp, rfl, rfl, rfl, by rw [List.getElem?_set_self (by simp; omega)],
      fun j h1 h2 => by omega⟩
    (by
      rintro i st _ hlt ⟨hl, hs1, hs2, hs3, h0, hj⟩
      refine ⟨by simp [akimaSlopesStep, hl], ?_, ?_, rfl, ?_, ?_⟩
      · simp [akimaSlopesStep, hs2]
      · simp [akimaSlopesStep, hs3]
      · simp only [akimaSlopesStep]
        rw [List.getElem?_set_ne (by omega)]; exact h0
      · intro j hj1 hj2
        simp only [akimaSlopesStep]
        by_cases e : j = i + 1
        · subst e
          rw [List.getElem?_set_self (by omega), hs1, hs2, hs3]
          rcases Nat.eq_zero_or_pos i with hi | hi
          · subst hi; rfl
          · have e1 : i + 1 ≠ 1 := by omega
            have e2 : i ≠ 0 := by omega
            have e3 : i + 1 - 2 = i - 1 := by omega
            simp only [e1, e2, e3, if_false, Nat.add_sub_cancel]
            rfl
        · rw [List.getElem?_set_ne (by omega)]
          exact hj j hj1 (by omega))
  obtain ⟨hl, hs1, hs2, hs3, h0, hj⟩ := h
  simp only [Nat.zero_add] at hs1 hs2 hs3
  refine ⟨?_, ?_, ?_, ?_⟩
  · rw [List.getElem?_set_ne (by omega), List.getElem?_set_ne (by omega)]; exact h0
  · intro j hj1 hj2
    rw [List.getElem?_set_ne (by omega), List.getElem?_set_ne (by omega)]
    exact hj j hj1 (by omega)
  · rw [List.getElem?_set_ne (by omega), List.getElem?_set_self (by omega), hs1, hs2, hs3]
    have e1 : points.length - 3 + 1 = points.length - 2 := by omega
    have e2 : points.length - 3 - 1 = points.length - 4 := by omega
    have e3 : (points.length - 3 = 0) = (points.length = 3) := by
      apply propext; omega
    simp only [e1, e2, e3]
  · rw [List.getElem?_set_self (by simp; omega)]

/-! ### Tension one -/

theorem all_zero_set (l : List ℚ) (i : ℕ) (v : ℚ) (hl : ∀ x ∈ l, x = 0) (hv : v = 0) :
    ∀ x ∈ l.set i v, x = 0 := by
  intro x hx
  rcases List.mem_or_eq_of_mem_set hx with h | h
  · exact hl x h
  · rw [h, hv]

theorem all_zero_replicate (n : ℕ) : ∀ x ∈ List.replicate n (0 : ℚ), x = 0 :=
  fun _ hx => List.eq_of_mem_replicate hx

theorem qwtSlopesCardinal_tension_one (points : QPolygonF) :
    ∀ x ∈ qwtSlopesCardinal points 1 0 0, x = 0 := by
  dsimp only [qwtSlopesCardinal]
  have h := foldl_range'_inv (fun _ (md : List ℚ) => ∀ x ∈ md, x = 0)
    (cardinalSlopesStep points (1 - 1)) (points.length - 2) 1
    ((List.replicate points.length (0 : ℚ)).set 0 0)
    (all_zero_set _ _ _ (all_zero_replicate _) rfl)
    (fun i md _ _ hinv => all_zero_set _ _ _ hinv (by simp))
  exact all_zero_set _ _ _ h rfl

theorem qwtSlopesAkima_tension_one (points : QPolygonF) :
    ∀ x ∈ qwtSlopesAkima points 1 0 0, x = 0 := by
  dsimp only [qwtSlopesAkima]
  have h := foldl_range'_inv (fun _ (st : AkimaSlopesState) => ∀ x ∈ st.md, x = 0)
    (akimaSlopesStep points (1 - 1)) (points.length - 3) 0
    { md := (List.replicate points.length (0 : ℚ)).set 0 ((1 - 1) * 0), slope1 := 0,
      slope2 := qwtSlope (pAt points 0) (pAt points 1),
      slope3 := qwtSlope (pAt points 1) (pAt points 2) }
    (all_zero_set _ _ _ (all_zero_replicate _) (by simp))
    (fun i st _ _ hinv => all_zero_set _ _ _ hinv (by simp))
  exact all_zero_set _ _ _ (all_zero_set _ _ _ h (by simp)) rfl

/-- Needs `HarmonicMeanFinite`: where a divisor is zero the source multiplies a value
that is not finite by `1 - 1`. -/
theorem qwtSlopesHarmonicMean_tension_one (points : QPolygonF)
    (_ : HarmonicMeanFinite points) :
    ∀ x ∈ qwtSlopesHarmonicMean points 1 0 0, x = 0 := by
  dsimp only [qwtSlopesHarmonicMean]
  have h := foldl_range'_inv (fun _ (st : HarmonicSlopesState) => ∀ x ∈ st.m, x = 0)
    (harmonicSlopesStep points (1 - 1)) (points.length - 2) 1
    { m := (List.replicate points.length (0 : ℚ)).set 0 0,
      dx1 := (pAt points 1).x - (pAt points 0).x,
      dy1 := (pAt points 1).y - (pAt points 0).y }
    (all_zero_set _ _ _ (all_zero_replicate _) rfl)
    (fun i st _ _ hinv => all_zero_set _ _ _ hinv (by simp))
  exact all_zero_set _ _ _ h rfl

theorem qwtLocalEndpoints_tension_one (points : QPolygonF) (type : SplineType) :
    qwtLocalEndpoints points type 1 = (0, 0) := by
  simp [qwtLocalEndpoints]

/-! ### The endpoint estimator -/

theorem qwtLocalEndpoints_secant (points : QPolygonF) (type : SplineType) (t : ℚ)
    (ht : type ≠ SplineType.HarmonicMean) (hn : 2 ≤ points.length) :
    qwtLocalEndpoints points type t =
      ((1 - t) * qwtSlope (pAt points 0) (pAt points 1),
       (1 - t) * qwtSlope (pAt points (points.length - 2)) (pAt points (points.length - 1))) := by
  simp [qwtLocalEndpoints, ht, hn, mul_comm]

theorem qwtLocalEndpoints_short (points : QPolygonF) (type : SplineType) (t : ℚ)
    (hn : points.length < 2) :
    qwtLocalEndpoints points type t = (0, 0) := by
  have h2 : ¬ 2 ≤ points.length := by omega
  have h3 : ¬ 3 ≤ points.length := by omega
  by_cases h : type = SplineType.HarmonicMean <;> simp [qwtLocalEndpoints, h, h2, h3]

/-! ### Dispatch -/

theorem slopesX_cardinal (self : QwtSplineLocal) (points : QPolygonF)
    (hc : self.d_type = SplineType.Cardinal) (hn : 3 ≤ points.length) :
    self.slopesX points = qwtSlopesCardinal points self.d_tension
      (qwtLocalEndpoints points self.d_type self.d_tension).1
      (qwtLocalEndpoints points self.d_type self.d_tension).2 := by
  have h1 : ¬ points.length ≤ 1 := by omega
  have h2 : points.length ≠ 2 := by omega
  simp [QwtSplineLocal.slopesX, QwtSplineLocal.slopesClampedX, hc, h1, h2]

theorem slopesX_akima (self : QwtSplineLocal) (points : QPolygonF)
    (hc : self.d_type = SplineType.Akima) (hn : 3 ≤ points.length) :
    self.slopesX points = qwtSlopesAkima points self.d_tension
      (qwtLocalEndpoints points self.d_type self.d_tension).1
      (qwtLocalEndpoints points self.d_type self.d_tension).2 := by
  have h1 : ¬ points.length ≤ 1 := by omega
  have h2 : points.length ≠ 2 := by omega
  simp [QwtSplineLocal.slopesX, QwtSplineLocal.slopesClampedX, hc, h1, h2]

theorem slopesX_harmonicMean (self : QwtSplineLocal) (points : QPolygonF)
    (hc : self.d_type = SplineType.HarmonicMean) (hn : 3 ≤ points.length) :
    self.slopesX points = qwtSlopesHarmonicMean points self.d_tension
      (qwtLocalEndpoints points self.d_type self.d_tension).1
      (qwtLocalEndpoints points self.d_type self.d_tension).2 := by
  have h1 : ¬ points.length ≤ 1 := by omega
  have h2 : points.length ≠ 2 := by omega
  simp [QwtSplineLocal.slopesX, QwtSplineLocal.slopesClampedX, hc, h1, h2]

theorem slopesX_unimplemented (self : QwtSplineLocal) (points : QPolygonF)
    (hc : self.d_type = SplineType.ParabolicBlending ∨ self.d_type = SplineType.PChip)
    (hn : 3 ≤ points.length) :
    self.slopesX points = [] := by
  have h1 : ¬ points.length ≤ 1 := by omega
  have h2 : points.length ≠ 2 := by omega
  rcases hc with hc | hc <;>
    simp [QwtSplineLocal.slopesX, QwtSplineLocal.slopesClampedX, hc, h1, h2]

theorem slopesX_two (self : QwtSplineLocal) (points : QPolygonF) (hn : points.length = 2) :
    self.slopesX points = [(qwtLocalEndpoints points self.d_type self.d_tension).1,
      (qwtLocalEndpoints points self.d_type self.d_tension).2] := by
  simp [QwtSplineLocal.slopesX, QwtSplineLocal.slopesClampedX, hn]

theorem slopesX_short (self : QwtSplineLocal) (points : QPolygonF) (hn : points.length ≤ 1) :
    self.slopesX points = [] := by
  simp [QwtSplineLocal.slopesX, QwtSplineLocal.slopesClampedX, hn]

theorem qwtLocalEndpoints_scale (points : QPolygonF) (type : SplineType) (t : ℚ) :
    (qwtLocalEndpoints points type t).1 = (1 - t) * (qwtLocalEndpoints points type 0).1 ∧
    (qwtLocalEndpoints points type t).2 = (1 - t) * (qwtLocalEndpoints points type 0).2 := by
  simp only [qwtLocalEndpoints]
  constructor <;> ring

theorem getElem?_lt_of_some (l : List ℚ) (i : ℕ) (x : ℚ) (h : l[i]? = some x) :
    i < l.length :=
  (List.getElem?_eq_some_iff.mp h).1

/-- The boundary entries of `slopesX`. -/
theorem slopesX_boundary (self : QwtSplineLocal) (points : QPolygonF)
    (himpl : self.d_type = SplineType.Cardinal ∨ self.d_type = SplineType.Akima ∨
      self.d_type = SplineType.HarmonicMean)
    (hn : 2 ≤ points.length) :
    (self.slopesX points)[points.length - 1]? =
      some (qwtLocalEndpoints points self.d_type self.d_tension).2 ∧
    (self.d_type ≠ SplineType.Akima ∨ points.length = 2 →
      (self.slopesX points)[0]? =
        some (qwtLocalEndpoints points self.d_type self.d_tension).1) ∧
    (self.d_type = SplineType.Akima → 3 ≤ points.length →
      (self.slopesX points)[0]? =
        some ((1 - self.d_tension) * (qwtLocalEndpoints points self.d_type self.d_tension).1)) := by
  by_cases h2 : points.length = 2
  · rw [slopesX_two self points h2, h2]
    exact ⟨rfl, fun _ => rfl, fun _ h => by omega⟩
  have h3 : 3 ≤ points.length := by omega
  rcases himpl with hc | hc | hc
  · obtain ⟨a0, -, al⟩ := qwtSlopesCardinal_getElem? points self.d_tension
      (qwtLocalEndpoints points self.d_type self.d_tension).1
      (qwtLocalEndpoints points self.d_type self.d_tension).2 h3
    rw [slopesX_cardinal self points hc h3]
    exact ⟨al, fun _ => a0, fun h => by rw [hc] at h; cases h⟩
  · obtain ⟨a0, -, -, al⟩ := qwtSlopesAkima_getElem? points self.d_tension
      (qwtLocalEndpoints points self.d_type self.d_tension).1
      (qwtLocalEndpoints points self.d_type self.d_tension).2 h3
    rw [slopesX_akima self points hc h3]
    exact ⟨al, fun h => by rcases h with h | h; exact absurd hc h; exact absurd h h2,
      fun _ _ => a0⟩
  · obtain ⟨a0, -, -, al⟩ := qwtSlopesHarmonicMean_getElem? points self.d_tension
      (qwtLocalEndpoints points self.d_type self.d_tension).1
      (qwtLocalEndpoints points self.d_type self.d_tension).2 h3
    rw [slopesX_harmonicMean self points hc h3]
    exact ⟨al, fun _ => a0, fun h => by rw [hc] at h; cases h⟩

/-! ### Paths as Hermite chains -/

theorem qwtCubicToP_eq (p1 : QPointF) (m1 : ℚ) (p2 : QPointF) (m2 : ℚ) (path : QPainterPath) :
    qwtCubicToP p1 m1 p2 m2 path = path ++ [hermiteSegment p1 m1 p2 m2] := rfl

theorem hermitePrefix_succ (points : QPolygonF) (m : List ℚ) (k : ℕ) :
    hermitePrefix points m (k + 1) = hermitePrefix points m k ++
      [hermiteSegment (pAt points k) (m.getD k 0) (pAt points (k + 1)) (m.getD (k + 1) 0)] := by
  simp [hermitePrefix, List.range_succ]

theorem hermitePrefix_step (points : QPolygonF) (m : List ℚ) (k j : ℕ) (hj : j = k + 1) :
    hermitePrefix points m j = hermitePrefix points m k ++
      [hermiteSegment (pAt points k) (m.getD k 0) (pAt points j) (m.getD j 0)] := by
  subst hj
  exact hermitePrefix_succ points m k

theorem hermitePrefix_zero (points : QPolygonF) (m : List ℚ) :
    hermitePrefix points m 0 = QPainterPath.moveTo [] (pAt points 0) := by
  simp [hermitePrefix, QPainterPath.moveTo]

theorem cubicChain_eq_hermiteChain (points : QPolygonF) (m : List ℚ) :
    cubicChain points m = hermiteChain points m := by
  have h := foldl_range'_inv (fun i (path : QPainterPath) => path = hermitePrefix points m i)
    (fun path i =>
      qwtCubicToP (pAt points i) (m.getD i 0) (pAt points (i + 1)) (m.getD (i + 1) 0) path)
    (points.length - 1) 0 (QPainterPath.moveTo [] (pAt points 0))
    (hermitePrefix_zero points m).symm
    (fun i path _ _ hinv => by
      show qwtCubicToP _ _ _ _ path = hermitePrefix points m (i + 1)
      rw [hermitePrefix_succ, qwtCubicToP_eq, show path = hermitePrefix points m i from hinv])
  simpa [cubicChain, hermiteChain] using h

theorem getD_of_getElem? (l : List ℚ) (i : ℕ) (x : ℚ) (h : l[i]? = some x) :
    l.getD i 0 = x := by
  simp [h]

theorem qwtPathCardinal_eq_chain (points : QPolygonF) (t a b : ℚ) (hn : 3 ≤ points.length) :
    qwtPathCardinal points t a b = hermiteChain points (qwtSlopesCardinal points t a b) := by
  obtain ⟨m0, mj, ml⟩ := qwtSlopesCardinal_getElem? points t a b hn
  dsimp only [qwtPathCardinal, hermiteChain]
  have h := foldl_range'_inv
    (fun i (st : QPainterPath × ℚ) =>
      st.1 = hermitePrefix points (qwtSlopesCardinal points t a b) (i - 1) ∧
      st.2 = (qwtSlopesCardinal points t a b).getD (i - 1) 0)
    (cardinalPathStep points (1 - t)) (points.length - 2) 1
    (QPainterPath.moveTo [] (pAt points 0), a)
    ⟨(hermitePrefix_zero points _).symm, (getD_of_getElem? _ _ _ m0).symm⟩
    (by
      rintro i st hi hlt ⟨hp, hm⟩
      obtain ⟨k, rfl⟩ : ∃ k, i = k + 1 := ⟨i - 1, by omega⟩
      have e := getD_of_getElem? _ _ _ (mj (k + 1) (by omega) (by omega))
      simp only [cardinalPathStep, Nat.add_sub_cancel] at hp hm e ⊢
      exact ⟨by rw [hermitePrefix_succ, qwtCubicToP_eq, hp, hm, e], e.symm⟩)
  obtain ⟨hp, hm⟩ := h
  have e1 : 1 + (points.length - 2) - 1 = points.length - 2 := by omega
  have e2 : points.length - 1 = (points.length - 2) + 1 := by omega
  rw [e1] at hp hm
  rw [qwtCubicToP_eq, hp, hm, e2, hermitePrefix_succ, ← e2,
    getD_of_getElem? _ _ _ ml]

theorem qwtPathAkima_eq_chain (points : QPolygonF) (t a b : ℚ) (hn : 3 ≤ points.length) :
    qwtPathAkima points t a b = hermiteChain points (qwtSlopesAkima points t a b) := by
  obtain ⟨m0, mj, mp, ml⟩ := qwtSlopesAkima_getElem? points t a b hn
  generalize qwtSlopesAkima points t a b = M at m0 mj mp ml ⊢
  dsimp only [qwtPathAkima, hermiteChain]
  have key : ∀ st : AkimaPathState,
      (st.path = hermitePrefix points M (points.length - 3) ∧
        st.m1 = M.getD (points.length - 3) 0 ∧
        st.slope1 = (if points.length - 3 = 0 then a
          else secantAt points (points.length - 3 - 1)) ∧
        st.slope2 = secantAt points (points.length - 3) ∧
        st.slope3 = secantAt points (points.length - 3 + 1)) →
      qwtCubicToP (pAt points (points.length - 2))
        ((1 - t) * qwtAkima st.slope1 st.slope2 st.slope3 b) (pAt points (points.length - 1)) b
        (qwtCubicToP (pAt points (points.length - 3)) st.m1 (pAt points (points.length - 2))
          ((1 - t) * qwtAkima st.slope1 st.slope2 st.slope3 b) st.path) =
      hermitePrefix points M (points.length - 1) := by
    rintro st ⟨hp, hm, hs1, hs2, hs3⟩
    have e1 : points.length - 3 + 1 = points.length - 2 := by omega
    have e2 : points.length - 3 - 1 = points.length - 4 := by omega
    have e3 : (points.length - 3 = 0) = (points.length = 3) := by
      apply propext; omega
    rw [e1] at hs3
    simp only [e2, e3] at hs1
    have em := getD_of_getElem? _ _ _ mp
    have el := getD_of_getElem? _ _ _ ml
    rw [← hs1, ← hs2, ← hs3] at em
    rw [hermitePrefix_step points M (points.length - 2) (points.length - 1) (by omega),
      hermitePrefix_step points M (points.length - 3) (points.length - 2) (by omega),
      el, em, qwtCubicToP_eq, qwtCubicToP_eq, hp, hm]
  have h := foldl_range'_inv
    (fun i (st : AkimaPathState) =>
      st.path = hermitePrefix points M i ∧
      st.m1 = M.getD i 0 ∧
      st.slope1 = (if i = 0 then a else secantAt points (i - 1)) ∧
      st.slope2 = secantAt points i ∧ st.slope3 = secantAt points (i + 1))
    (akimaPathStep points (1 - t)) (points.length - 3) 0
    { path := QPainterPath.moveTo [] (pAt points 0), slope1 := a,
      slope2 := qwtSlope (pAt points 0) (pAt points 1),
      slope3 := qwtSlope (pAt points 1) (pAt points 2), m1 := (1 - t) * a }
    ⟨(hermitePrefix_zero points _).symm, (getD_of_getElem? _ _ _ m0).symm, rfl, rfl, rfl⟩
    (by
      rintro i st _ hlt ⟨hp, hm, hs1, hs2, hs3⟩
      have e := getD_of_getElem? _ _ _ (mj (i + 1) (by omega) (by omega))
      have ew : (if i + 1 = 1 then a else secantAt points (i + 1 - 2)) =
          (if i = 0 then a else secantAt points (i - 1)) := by
        rcases Nat.eq_zero_or_pos i with hi | hi
        · subst hi; rfl
        · have e1 : i + 1 ≠ 1 := by omega
          have e2 : i ≠ 0 := by omega
          have e3 : i + 1 - 2 = i - 1 := by omega
          simp only [e1, e2, e3, if_false]
      rw [ew] at e
      simp only [Nat.add_sub_cancel] at e
      have em : (1 - t) * qwtAkima st.slope1 st.slope2 st.slope3
          (qwtSlope (pAt points (i + 2)) (pAt points (i + 3))) = M.getD (i + 1) 0 := by
        rw [e, hs1, hs2, hs3]; rfl
      refine ⟨?_, ?_, ?_, ?_, rfl⟩
      · simp only [akimaPathStep]
        rw [hermitePrefix_succ, qwtCubicToP_eq, hp, hm, em]
      · simp only [akimaPathStep]; exact em
      · simp [akimaPathStep, hs2]
      · simp [akimaPathStep, hs3])
  simp only [Nat.zero_add] at h
  exact key _ h

theorem harmonicMeanSlopesSpec_getD (points : QPolygonF) (t a b : ℚ) (i : ℕ)
    (hi : i < points.length) :
    (harmonicMeanSlopesSpec points t a b).getD i 0 =
      if i = 0 then a
      else if i + 1 = points.length then b
      else (1 - t) * qwtHarmonicMean
        ((pAt points i).x - (pAt points (i - 1)).x) ((pAt points i).y - (pAt points (i - 1)).y)
        ((pAt points (i + 1)).x - (pAt points i).x)
        ((pAt points (i + 1)).y - (pAt points i).y) := by
  simp [harmonicMeanSlopesSpec, List.getElem?_map, List.getElem?_range hi]

theorem harmonic_segment_eq (p1 p2 : QPointF) (m1 m2 : ℚ) :
    PathElement.cubicTo
      (p1.add (QPointF.divS ⟨p2.x - p1.x, (p2.x - p1.x) * m1⟩ 3))
      (p2.sub (QPointF.divS ⟨p2.x - p1.x, (p2.x - p1.x) * m2⟩ 3)) p2 =
    hermiteSegment p1 m1 p2 m2 := by
  simp only [hermiteSegment, QPointF.add, QPointF.sub, QPointF.divS, PathElement.cubicTo.injEq,
    QPointF.mk.injEq, and_true, true_and]
  refine ⟨?_, ?_⟩ <;> ring

theorem qwtPathHarmonicMean_eq_chain (points : QPolygonF) (t a b : ℚ)
    (hn : 3 ≤ points.length) :
    qwtPathHarmonicMean points t a b =
      hermiteChain points (harmonicMeanSlopesSpec points t a b) := by
  have el := harmonicMeanSlopesSpec_getD points t a b (points.length - 1) (by omega)
  have e5 : points.length - 1 ≠ 0 := by omega
  have e6 : points.length - 1 + 1 = points.length := by omega
  simp only [e5, e6, if_true, if_false] at el
  have e0 := harmonicMeanSlopesSpec_getD points t a b 0 (by omega)
  simp only [if_true] at e0
  have ej : ∀ k, k + 2 < points.length →
      (harmonicMeanSlopesSpec points t a b).getD (k + 1) 0 = (1 - t) * qwtHarmonicMean
        ((pAt points (k + 1)).x - (pAt points k).x) ((pAt points (k + 1)).y - (pAt points k).y)
        ((pAt points (k + 2)).x - (pAt points (k + 1)).x)
        ((pAt points (k + 2)).y - (pAt points (k + 1)).y) := by
    intro k hk
    have e := harmonicMeanSlopesSpec_getD points t a b (k + 1) (by omega)
    have e1 : k + 1 ≠ 0 := by omega
    have e2 : k + 1 + 1 ≠ points.length := by omega
    simpa only [e1, e2, if_false, Nat.add_sub_cancel] using e
  generalize harmonicMeanSlopesSpec points t a b = M at el e0 ej ⊢
  dsimp only [qwtPathHarmonicMean, hermiteChain]
  have key : ∀ st : HarmonicPathState,
      (st.path = hermitePrefix points M (points.length - 2) ∧
        st.m1 = M.getD (points.length - 2) 0 ∧
        st.dx1 = (pAt points (points.length - 1)).x - (pAt points (points.length - 2)).x) →
      st.path.cubicTo
        ((pAt points (points.length - 2)).add (QPointF.divS ⟨st.dx1, st.dx1 * st.m1⟩ 3))
        ((pAt points (points.length - 1)).sub (QPointF.divS ⟨st.dx1, st.dx1 * b⟩ 3))
        (pAt points (points.length - 1)) =
      hermitePrefix points M (points.length - 1) := by
    rintro st ⟨hp, hm, hdx⟩
    rw [hp, hm, hdx, QPainterPath.cubicTo, harmonic_segment_eq,
      hermitePrefix_step points M (points.length - 2) (points.length - 1) (by omega), el]
  have h := foldl_range'_inv
    (fun i (st : HarmonicPathState) =>
      st.path = hermitePrefix points M (i - 1) ∧
      st.m1 = M.getD (i - 1) 0 ∧
      st.dx1 = (pAt points i).x - (pAt points (i - 1)).x ∧
      st.dy1 = (pAt points i).y - (pAt points (i - 1)).y)
    (harmonicPathStep points (1 - t)) (points.length - 2) 1
    { path := QPainterPath.moveTo [] (pAt points 0),
      dx1 := (pAt points 1).x - (pAt points 0).x,
      dy1 := (pAt points 1).y - (pAt points 0).y, m1 := a }
    ⟨(hermitePrefix_zero points _).symm, e0.symm, rfl, rfl⟩
    (by
      rintro i st hi hlt ⟨hp, hm, hdx, hdy⟩
      obtain ⟨k, rfl⟩ : ∃ k, i = k + 1 := ⟨i - 1, by omega⟩
      have e := ej k (by omega)
      simp only [Nat.add_sub_cancel] at hp hm hdx hdy
      simp only [harmonicPathStep, Nat.add_sub_cancel]
      refine ⟨?_, ?_, trivial, trivial⟩
      · rw [hermitePrefix_succ, hp, hm, e, hdx, hdy, QPainterPath.cubicTo,
          harmonic_segment_eq]
      · rw [e, hdx, hdy])
  obtain ⟨hp, hm, hdx, -⟩ := h
  have e1 : 1 + (points.length - 2) - 1 = points.length - 2 := by omega
  have e2 : 1 + (points.length - 2) = points.length - 1 := by omega
  rw [e1] at hp hm
  rw [e1, e2] at hdx
  exact key _ ⟨hp, hm, hdx⟩

/-! ### Dispatch of `pathP` -/

theorem pathP_x (self : QwtSplineLocal) (points : QPolygonF)
    (hx : self.parametrization = Parametrization.ParametrizationX) :
    self.pathP points = self.pathClampedX points
      (qwtLocalEndpoints points self.d_type self.d_tension).1
      (qwtLocalEndpoints points self.d_type self.d_tension).2 := by
  simp [QwtSplineLocal.pathP, hx]

theorem pathClampedX_two (self : QwtSplineLocal) (points : QPolygonF) (a b : ℚ)
    (hn : points.length = 2) :
    self.pathClampedX points a b =
      [PathElement.moveTo (pAt points 0), hermiteSegment (pAt points 0) a (pAt points 1) b] := by
  simp [QwtSplineLocal.pathClampedX, hn, qwtCubicToP_eq, QPainterPath.moveTo]

theorem pathClampedX_cardinal (self : QwtSplineLocal) (points : QPolygonF) (a b : ℚ)
    (hc : self.d_type = SplineType.Cardinal) (hn : 3 ≤ points.length) :
    self.pathClampedX points a b = qwtPathCardinal points self.d_tension a b := by
  have h0 : points.length ≠ 0 := by omega
  have h1 : points.length ≠ 1 := by omega
  have h2 : points.length ≠ 2 := by omega
  simp [QwtSplineLocal.pathClampedX, hc, h0, h1, h2]

theorem pathClampedX_akima (self : QwtSplineLocal) (points : QPolygonF) (a b : ℚ)
    (hc : self.d_type = SplineType.Akima) (hn : 3 ≤ points.length) :
    self.pathClampedX points a b = qwtPathAkima points self.d_tension a b := by
  have h0 : points.length ≠ 0 := by omega
  have h1 : points.length ≠ 1 := by omega
  have h2 : points.length ≠ 2 := by omega
  simp [QwtSplineLocal.pathClampedX, hc, h0, h1, h2]

theorem pathClampedX_harmonicMean (self : QwtSplineLocal) (points : QPolygonF) (a b : ℚ)
    (hc : self.d_type = SplineType.HarmonicMean) (hn : 3 ≤ points.length) :
    self.pathClampedX points a b = qwtPathHarmonicMean points self.d_tension a b := by
  have h0 : points.length ≠ 0 := by omega
  have h1 : points.length ≠ 1 := by omega
  have h2 : points.length ≠ 2 := by omega
  simp [QwtSplineLocal.pathClampedX, hc, h0, h1, h2]

theorem pathClampedX_unimplemented (self : QwtSplineLocal) (points : QPolygonF) (a b : ℚ)
    (hc : self.d_type = SplineType.ParabolicBlending ∨ self.d_type = SplineType.PChip)
    (hn : 3 ≤ points.length) :
    self.pathClampedX points a b = [] := by
  have h0 : points.length ≠ 0 := by omega
  have h1 : points.length ≠ 1 := by omega
  have h2 : points.length ≠ 2 := by omega
  rcases hc with hc | hc <;> simp [QwtSplineLocal.pathClampedX, hc, h0, h1, h2]

theorem hermitePrefix_congr (points : QPolygonF) (m m' : List ℚ) (k : ℕ)
    (h : ∀ i, i ≤ k → m.getD i 0 = m'.getD i 0) :
    hermitePrefix points m k = hermitePrefix points m' k := by
  unfold hermitePrefix
  congr 1
  apply List.map_congr_left
  intro i hi
  have hik : i < k := List.mem_range.mp hi
  rw [h i (by omega), h (i + 1) (by omega)]

theorem getD_all_zero (l : List ℚ) (i : ℕ) (h : ∀ x ∈ l, x = 0) : l.getD i 0 = 0 := by
  rw [List.getD_eq_getElem?_getD]
  cases e : l[i]? with
  | none => rfl
  | some x => exact h x (List.getElem?_mem e)

theorem hermiteChain_two (points : QPolygonF) (a b : ℚ) (hn : points.length = 2) :
    hermiteChain points [a, b] =
      [PathElement.moveTo (pAt points 0), hermiteSegment (pAt points 0) a (pAt points 1) b] := by
  simp [hermiteChain, hermitePrefix, hn, List.range_succ]

/-! ### The harmonic mean and the divisors -/

theorem qwtHarmonicMean2_eq_spec (a b : ℚ) : qwtHarmonicMean2 a b = harmonicMeanSpec a b := by
  unfold qwtHarmonicMean2 harmonicMeanSpec
  by_cases ha : 0 < a <;> by_cases hb : 0 < b
  · have h1 : a ≠ 0 := ne_of_gt ha
    have h2 : b ≠ 0 := ne_of_gt hb
    simp [ha, hb, h1, h2]
  · have h1 : ¬ (a < 0) := not_lt.mpr ha.le
    simp [ha, hb, h1]
  · have h2 : ¬ (b < 0) := not_lt.mpr hb.le
    simp [ha, hb, h2]
  · rcases eq_or_lt_of_le (not_lt.mp ha) with h | h
    · simp [h]
    · rcases eq_or_lt_of_le (not_lt.mp hb) with h' | h'
      · simp [h']
      · have h1 : a ≠ 0 := ne_of_lt h
        have h2 : b ≠ 0 := ne_of_lt h'
        simp [ha, hb, h, h', h1, h2]

theorem qwtSlopeDivisors_ne_zero (p1 p2 : QPointF) : ∀ d ∈ qwtSlopeDivisors p1 p2, d ≠ 0 := by
  intro d hd
  unfold qwtSlopeDivisors at hd
  by_cases h : p2.x - p1.x ≠ 0
  · rw [if_pos h, List.mem_singleton] at hd
    rw [hd]; exact h
  · rw [if_neg h] at hd
    exact absurd hd (List.not_mem_nil d)

theorem qwtAkima_denominator_pos (s1 s2 s3 s4 : ℚ) (h : ¬ (s1 = s2 ∧ s3 = s4)) :
    0 < |s2 - s1| + |s4 - s3| := by
  have h1 : 0 ≤ |s2 - s1| := abs_nonneg _
  have h2 : 0 ≤ |s4 - s3| := abs_nonneg _
  rcases lt_or_eq_of_le h1 with h1' | h1'
  · linarith
  · rcases lt_or_eq_of_le h2 with h2' | h2'
    · linarith
    · exfalso
      apply h
      have e1 : s2 - s1 = 0 := abs_eq_zero.mp h1'.symm
      have e2 : s4 - s3 = 0 := abs_eq_zero.mp h2'.symm
      exact ⟨by linarith, by linarith⟩

theorem qwtAkimaDivisors_ne_zero (s1 s2 s3 s4 : ℚ) :
    ∀ d ∈ qwtAkimaDivisors s1 s2 s3 s4, d ≠ 0 := by
  intro d hd
  unfold qwtAkimaDivisors at hd
  by_cases h : s1 = s2 ∧ s3 = s4
  · rw [if_pos h] at hd
    exact absurd hd (List.not_mem_nil d)
  · rw [if_neg h, List.mem_singleton] at hd
    rw [hd]; exact ne_of_gt (qwtAkima_denominator_pos s1 s2 s3 s4 h)

theorem qwtHarmonicMean2Divisors_ne_zero (s1 s2 : ℚ) :
    ∀ d ∈ qwtHarmonicMean2Divisors s1 s2, d ≠ 0 := by
  intro d hd
  unfold qwtHarmonicMean2Divisors at hd
  by_cases hs : decide (s1 > 0) = decide (s2 > 0)
  · by_cases hz : s1 ≠ 0 ∧ s2 ≠ 0
    · rw [if_pos hs, if_pos hz] at hd
      simp only [List.mem_cons, List.mem_singleton, List.not_mem_nil, or_false] at hd
      rcases hd with rfl | rfl | rfl
      · exact hz.1
      · exact hz.2
      · have hiff : (s1 > 0) ↔ (s2 > 0) := by simpa using hs
        rcases lt_or_gt_of_ne hz.1 with h1 | h1
        · have h2 : s2 < 0 := by
            rcases lt_or_gt_of_ne hz.2 with h2 | h2
            · exact h2
            · exact absurd (hiff.mpr h2) (not_lt.mpr h1.le)
          have : 1 / s1 + 1 / s2 < 0 :=
            add_neg (one_div_neg.mpr h1) (one_div_neg.mpr h2)
          exact ne_of_lt this
        · have h2 : 0 < s2 := hiff.mp h1
          have : 0 < 1 / s1 + 1 / s2 :=
            add_pos (one_div_pos.mpr h1) (one_div_pos.mpr h2)
          exact ne_of_gt this
    · rw [if_pos hs, if_neg hz] at hd
      exact absurd hd (List.not_mem_nil d)
  · rw [if_neg hs] at hd
    exact absurd hd (List.not_mem_nil d)

theorem qwtHarmonicMeanDivisors_ne_zero (dx1 dy1 dx2 dy2 : ℚ) (h1 : 0 < dx1) (h2 : 0 < dx2) :
    ∀ d ∈ qwtHarmonicMeanDivisors dx1 dy1 dx2 dy2, d ≠ 0 := by
  intro d hd
  unfold qwtHarmonicMeanDivisors at hd
  by_cases hs : decide (dy1 > 0) = decide (dy2 > 0)
  · by_cases hz : dy1 ≠ 0 ∧ dy2 ≠ 0
    · rw [if_pos hs, if_pos hz] at hd
      simp only [List.mem_cons, List.mem_singleton, List.not_mem_nil, or_false] at hd
      rcases hd with rfl | rfl | rfl
      · exact hz.1
      · exact hz.2
      · have hiff : (dy1 > 0) ↔ (dy2 > 0) := by simpa using hs
        rcases lt_or_gt_of_ne hz.1 with g1 | g1
        · have g2 : dy2 < 0 := by
            rcases lt_or_gt_of_ne hz.2 with g2 | g2
            · exact g2
            · exact absurd (hiff.mpr g2) (not_lt.mpr g1.le)
          have : dx1 / dy1 + dx2 / dy2 < 0 :=
            add_neg (div_neg_of_pos_of_neg h1 g1) (div_neg_of_pos_of_neg h2 g2)
          exact ne_of_lt this
        · have g2 : 0 < dy2 := hiff.mp g1
          have : 0 < dx1 / dy1 + dx2 / dy2 := add_pos (div_pos h1 g1) (div_pos h2 g2)
          exact ne_of_gt this
    · rw [if_pos hs, if_neg hz] at hd
      exact absurd hd (List.not_mem_nil d)
  · rw [if_neg hs] at hd
    exact absurd hd (List.not_mem_nil d)

theorem qwtAkima_self (c : ℚ) : qwtAkima c c c c = c := by
  unfold qwtAkima
  rw [if_pos ⟨rfl, rfl⟩]
  ring

theorem hermiteChain_congr_zero (points : QPolygonF) (m : List ℚ) (h : ∀ x ∈ m, x = 0) :
    hermiteChain points m = hermiteChain points (List.replicate points.length 0) := by
  unfold hermiteChain
  apply hermitePrefix_congr
  intro i _
  rw [getD_all_zero m i h, getD_all_zero _ i (all_zero_replicate _)]

/-- Needs `HarmonicMeanFinite`, as `qwtSlopesHarmonicMean_tension_one` does. -/
theorem harmonicMeanSlopesSpec_tension_one (points : QPolygonF)
    (_ : HarmonicMeanFinite points) :
    ∀ x ∈ harmonicMeanSlopesSpec points 1 0 0, x = 0 := by
  intro x hx
  simp only [harmonicMeanSlopesSpec, List.mem_map, List.mem_range] at hx
  obtain ⟨i, _, rfl⟩ := hx
  by_cases h0 : i = 0
  · rw [if_pos h0]
  · rw [if_neg h0]
    by_cases h1 : i + 1 = points.length
    · rw [if_pos h1]
    · rw [if_neg h1]; simp

theorem pathP_tension_one_chain (self : QwtSplineLocal) (points : QPolygonF)
    (himpl : self.d_type = SplineType.Cardinal ∨ self.d_type = SplineType.Akima ∨
      self.d_type = SplineType.HarmonicMean)
    (hx : self.parametrization = Parametrization.ParametrizationX)
    (ht : self.d_tension = 1) (hn : 2 ≤ points.length)
    (hfin : self.d_type = SplineType.HarmonicMean → HarmonicMeanFinite points) :
    self.pathP points = hermiteChain points (List.replicate points.length 0) := by
  rw [pathP_x self points hx, ht, qwtLocalEndpoints_tension_one]
  by_cases h2 : points.length = 2
  · rw [pathClampedX_two self points 0 0 h2, h2]
    exact (hermiteChain_two points 0 0 h2).symm
  have h3 : 3 ≤ points.length := by omega
  rcases himpl with hc | hc | hc
  · rw [pathClampedX_cardinal self points 0 0 hc h3, ht, qwtPathCardinal_eq_chain points 1 0 0 h3]
    exact hermiteChain_congr_zero points _ (qwtSlopesCardinal_tension_one points)
  · rw [pathClampedX_akima self points 0 0 hc h3, ht, qwtPathAkima_eq_chain points 1 0 0 h3]
    exact hermiteChain_congr_zero points _ (qwtSlopesAkima_tension_one points)
  · rw [pathClampedX_harmonicMean self points 0 0 hc h3, ht,
      qwtPathHarmonicMean_eq_chain points 1 0 0 h3]
    exact hermiteChain_congr_zero points _
      (harmonicMeanSlopesSpec_tension_one points (hfin hc))

theorem onLine_flat_first (p1 p2 : QPointF) :
    onLine p1 p2 ⟨p1.x + (p2.x - p1.x) / 3, p1.y⟩ ↔ (p1.y = p2.y ∨ p1.x = p2.x) := by
  simp only [onLine]
  constructor
  · intro h
    have e : (p2.y - p1.y) * (p2.x - p1.x) = 0 := by linear_combination (-3) * h
    rcases mul_eq_zero.mp e with e | e
    · exact Or.inl (by linarith)
    · exact Or.inr (by linarith)
  · rintro (h | h)
    · rw [h]; ring
    · rw [h]; ring

theorem onLine_flat_second (p1 p2 : QPointF) :
    onLine p1 p2 ⟨p2.x - (p2.x - p1.x) / 3, p2.y⟩ ↔ (p1.y = p2.y ∨ p1.x = p2.x) := by
  simp only [onLine]
  constructor
  · intro h
    have e : (p2.y - p1.y) * (p2.x - p1.x) = 0 := by linear_combination 3 * h
    rcases mul_eq_zero.mp e with e | e
    · exact Or.inl (by linarith)
    · exact Or.inr (by linarith)
  · rintro (h | h)
    · rw [h]; ring
    · rw [h]; ring

theorem hermiteSegment_flat (p1 p2 : QPointF) :
    hermiteSegment p1 0 p2 0 =
      PathElement.cubicTo ⟨p1.x + (p2.x - p1.x) / 3, p1.y⟩ ⟨p2.x - (p2.x - p1.x) / 3, p2.y⟩ p2 := by
  simp [hermiteSegment, QPointF.add, QPointF.sub]

/-! ### Finite HarmonicMean slopes -/

/-- Strictly increasing x-coordinates exclude the division by zero. -/
theorem harmonicMeanFinite_of_increasing (points : QPolygonF)
    (h : ∀ i, i + 1 < points.length → (pAt points i).x < (pAt points (i + 1)).x) :
    HarmonicMeanFinite points := by
  intro i h1 h2
  obtain ⟨k, rfl⟩ : ∃ k, i = k + 1 := ⟨i - 1, by omega⟩
  have hk := h k (by omega)
  have hk1 := h (k + 1) h2
  simp only [Nat.add_sub_cancel]
  exact qwtHarmonicMeanDivisors_ne_zero _ _ _ _ (by linarith) (by linarith)

/-- With the stored tension equal to 1 every entry of `slopesX` is 0, on every point
sequence on which the HarmonicMean variant does not divide by zero. -/
theorem slopesX_tension_one_of_finite (self : QwtSplineLocal) (points : QPolygonF)
    (ht : self.d_tension = 1)
    (hfin : self.d_type = SplineType.HarmonicMean → HarmonicMeanFinite points) :
    ∀ x ∈ self.slopesX points, x = 0 := by
  have he := qwtLocalEndpoints_tension_one points self.d_type
  by_cases h1 : points.length ≤ 1
  · simp [slopesX_short self points h1]
  by_cases h2 : points.length = 2
  · rw [slopesX_two self points h2, ht, he]
    simp
  have h3 : 3 ≤ points.length := by omega
  cases hc : self.d_type with
  | Cardinal =>
    rw [slopesX_cardinal self points hc h3, ht, hc, ← hc, he]
    exact qwtSlopesCardinal_tension_one points
  | ParabolicBlending => simp [slopesX_unimplemented self points (Or.inl hc) h3]
  | Akima =>
    rw [slopesX_akima self points hc h3, ht, hc, ← hc, he]
    exact qwtSlopesAkima_tension_one points
  | HarmonicMean =>
    rw [slopesX_harmonicMean self points hc h3, ht, hc, ← hc, he]
    exact qwtSlopesHarmonicMean_tension_one points (hfin hc)
  | PChip => simp [slopesX_unimplemented self points (Or.inr hc) h3]

/-! ## The claims -/

/-- Claim C1: for each implemented variant (Cardinal, Akima, HarmonicMean), every stored
tension and every point sequence of length `n`, `slopesX` returns a vector of length
exactly `n` when `n ≥ 2` and the empty vector when `n < 2`. -/
theorem slopesX_length (self : QwtSplineLocal) (points : QPolygonF)
    (himpl : self.d_type = SplineType.Cardinal ∨ self.d_type = SplineType.Akima ∨
      self.d_type = SplineType.HarmonicMean) :
    (2 ≤ points.length → (self.slopesX points).length = points.length) ∧
      (points.length < 2 → self.slopesX points = []) := by
  constructor
  · intro hn
    unfold QwtSplineLocal.slopesX QwtSplineLocal.slopesClampedX
    by_cases h2 : points.length = 2
    · simp [h2]
    · have h1 : ¬ points.length ≤ 1 := by omega
      rcases himpl with h | h | h <;>
        simp [h, h1, h2, qwtSlopesCardinal_length, qwtSlopesAkima_length,
          qwtSlopesHarmonicMean_length]
  · intro hn
    have h1 : points.length ≤ 1 := by omega
    simp [QwtSplineLocal.slopesX, QwtSplineLocal.slopesClampedX, h1]

/-- Witness of C1: the Akima variant on four points. -/
theorem slopesX_length_witness :
    ((splineX SplineType.Akima (1 / 2)).d_type = SplineType.Cardinal ∨
      (splineX SplineType.Akima (1 / 2)).d_type = SplineType.Akima ∨
      (splineX SplineType.Akima (1 / 2)).d_type = SplineType.HarmonicMean) ∧
    2 ≤ zigzag.length ∧
    ((splineX SplineType.Akima (1 / 2)).slopesX zigzag).length = zigzag.length :=
  ⟨Or.inr (Or.inl rfl), by decide,
    (slopesX_length (splineX SplineType.Akima (1 / 2)) zigzag (Or.inr (Or.inl rfl))).1
      (by decide)⟩

/-- Claim C2: for each implemented variant under x-parametrization and every point
sequence of length `n ≥ 2`, `pathP` returns a move to `points[0]` followed by exactly
`n - 1` cubic segments, and the end point of segment `i` is `points[i+1]`. -/
theorem pathP_chain (self : QwtSplineLocal) (points : QPolygonF)
    (himpl : self.d_type = SplineType.Cardinal ∨ self.d_type = SplineType.Akima ∨
      self.d_type = SplineType.HarmonicMean)
    (hx : self.parametrization = Parametrization.ParametrizationX)
    (hn : 2 ≤ points.length) :
    ∃ (p0 : QPointF) (segs : List PathElement),
      points[0]? = some p0 ∧ self.pathP points = PathElement.moveTo p0 :: segs ∧
      segs.length = points.length - 1 ∧
      ∀ i q, points[i + 1]? = some q →
        ∃ c1 c2, segs[i]? = some (PathElement.cubicTo c1 c2 q) := by
  obtain ⟨segs, hp, hl, hs⟩ := pathClampedX_chain self points
    (qwtLocalEndpoints points self.d_type self.d_tension).1
    (qwtLocalEndpoints points self.d_type self.d_tension).2 himpl hn
  have h0 : 0 < points.length := by omega
  refine ⟨points[0], segs, by simp, ?_, hl, ?_⟩
  · have e : pAt points 0 = points[0] := pAt_of_getElem? points 0 _ (by simp)
    simp only [QwtSplineLocal.pathP, hx, if_true]
    rw [hp, e]
  · intro i q hq
    have hi : i + 1 < points.length := by
      rcases List.getElem?_eq_some_iff.mp hq with ⟨h, _⟩
      exact h
    obtain ⟨c1, c2, hc⟩ := hs i (by omega)
    exact ⟨c1, c2, by rw [hc, pAt_of_getElem? points (i + 1) q hq]⟩

/-- Witness of C2: the HarmonicMean variant on four points. -/
theorem pathP_chain_witness :
    ((splineX SplineType.HarmonicMean (1 / 2)).d_type = SplineType.Cardinal ∨
      (splineX SplineType.HarmonicMean (1 / 2)).d_type = SplineType.Akima ∨
      (splineX SplineType.HarmonicMean (1 / 2)).d_type = SplineType.HarmonicMean) ∧
    (splineX SplineType.HarmonicMean (1 / 2)).parametrization =
      Parametrization.ParametrizationX ∧
    2 ≤ zigzag.length ∧
    ∃ (p0 : QPointF) (segs : List PathElement),
      zigzag[0]? = some p0 ∧
      (splineX SplineType.HarmonicMean (1 / 2)).pathP zigzag =
        PathElement.moveTo p0 :: segs ∧
      segs.length = zigzag.length - 1 ∧
      ∀ i q, zigzag[i + 1]? = some q →
        ∃ c1 c2, segs[i]? = some (PathElement.cubicTo c1 c2 q) :=
  ⟨Or.inr (Or.inr rfl), rfl, by decide,
    pathP_chain (splineX SplineType.HarmonicMean (1 / 2)) zigzag (Or.inr (Or.inr rfl)) rfl
      (by decide)⟩

/-- Claim C3: the tension is clamped on every write.  After `setTension t`, and after
constructing with initial tension `t`, `tension` returns `max 0 (min t 1)`; the stored
value lies in `[0, 1]`; `setTension (-5)` gives 0 and `setTension 5` gives 1. -/
theorem setTension_clamps (self : QwtSplineLocal) (type : SplineType) (t : ℚ)
    (parametrization : Parametrization) (c1PathP : QPolygonF → QPainterPath) :
    (self.setTension t).tension = max 0 (min t 1) ∧
    (QwtSplineLocal.new type t parametrization c1PathP).tension = max 0 (min t 1) ∧
    0 ≤ (self.setTension t).tension ∧ (self.setTension t).tension ≤ 1 ∧
    0 ≤ (QwtSplineLocal.new type t parametrization c1PathP).tension ∧
    (QwtSplineLocal.new type t parametrization c1PathP).tension ≤ 1 ∧
    (self.setTension (-5)).tension = 0 ∧ (self.setTension 5).tension = 1 := by
  have e : ∀ (s : QwtSplineLocal) (u : ℚ), (s.setTension u).tension = max 0 (min u 1) :=
    fun s u => qBound_eq 0 u 1
  have hb : ∀ u : ℚ, 0 ≤ max 0 (min u 1) ∧ max 0 (min u 1) ≤ 1 :=
    fun u => ⟨le_max_left _ _, max_le (by norm_num) (min_le_right _ _)⟩
  refine ⟨e self t, e _ t, ?_, ?_, ?_, ?_, ?_, ?_⟩
  · rw [e]; exact (hb t).1
  · rw [e]; exact (hb t).2
  · unfold QwtSplineLocal.new; rw [e]; exact (hb t).1
  · unfold QwtSplineLocal.new; rw [e]; exact (hb t).2
  · rw [e]; norm_num
  · rw [e]; norm_num

/-- Claim C4, the code at a failing input: the HarmonicMean variant at tension 1 on
`(0,0), (0,1), (0,2)`.  The entry of `slopesX` at index 1 is `(1 - 1)` times the result
of the call `qwtHarmonicMean 0 1 0 1`, and that call divides `2.0` by `0/1 + 0/1 = 0`:
the factor `1 - 1 = 0` multiplies a value that is not finite, so the entry is not 0. -/
theorem slopesX_tension_one_zero_divisor :
    (splineX SplineType.HarmonicMean 1).d_tension = 1 ∧
    ((splineX SplineType.HarmonicMean 1).slopesX vertical)[1]? =
      some ((1 - 1) * qwtHarmonicMean
        ((pAt vertical 1).x - (pAt vertical 0).x) ((pAt vertical 1).y - (pAt vertical 0).y)
        ((pAt vertical 2).x - (pAt vertical 1).x) ((pAt vertical 2).y - (pAt vertical 1).y)) ∧
    qwtHarmonicMeanDivisors
        ((pAt vertical 1).x - (pAt vertical 0).x) ((pAt vertical 1).y - (pAt vertical 0).y)
        ((pAt vertical 2).x - (pAt vertical 1).x) ((pAt vertical 2).y - (pAt vertical 1).y) =
      [1, 1, 0] ∧
    ¬ HarmonicMeanFinite vertical := by
  have hd : qwtHarmonicMeanDivisors
      ((pAt vertical 1).x - (pAt vertical 0).x) ((pAt vertical 1).y - (pAt vertical 0).y)
      ((pAt vertical 2).x - (pAt vertical 1).x) ((pAt vertical 2).y - (pAt vertical 1).y) =
      [1, 1, 0] := by
    norm_num [qwtHarmonicMeanDivisors, vertical, pAt]
  refine ⟨rfl, ?_, hd, ?_⟩
  · have h := (qwtSlopesHarmonicMean_getElem? vertical 1
      (qwtLocalEndpoints vertical SplineType.HarmonicMean 1).1
      (qwtLocalEndpoints vertical SplineType.HarmonicMean 1).2 (by decide)).2.1
    rw [slopesX_harmonicMean (splineX SplineType.HarmonicMean 1) vertical rfl (by decide)]
    exact h
  · intro hfin
    have h0 := hfin 1 (le_refl 1) (by decide) 0
    simp only [Nat.sub_self] at h0
    rw [hd] at h0
    exact h0 (by simp) rfl

/-- Claim C5: for the Cardinal variant and a point sequence of length at least 3, the entry
of `slopesX` at an interior index `i` is `(1 - tension) * qwtSlope p[i-1] p[i+1]`, the
first entry is `(1 - tension) * qwtSlope p[0] p[1]` and the last one is
`(1 - tension) * qwtSlope p[n-2] p[n-1]`; for `(0,0), (1,1), (2,0), (3,1)` and tension 0
the result is `[1, 0, 0, 1]`. -/
theorem slopesX_cardinal_entries (self : QwtSplineLocal) (points : QPolygonF)
    (hc : self.d_type = SplineType.Cardinal) (hn : 3 ≤ points.length) :
    (∀ i a b, 1 ≤ i → points[i - 1]? = some a → points[i + 1]? = some b →
      (self.slopesX points)[i]? = some ((1 - self.d_tension) * qwtSlope a b)) ∧
    (∀ a b, points[0]? = some a → points[1]? = some b →
      (self.slopesX points)[0]? = some ((1 - self.d_tension) * qwtSlope a b)) ∧
    (∀ a b, points[points.length - 2]? = some a → points[points.length - 1]? = some b →
      (self.slopesX points)[points.length - 1]? =
        some ((1 - self.d_tension) * qwtSlope a b)) ∧
    (splineX SplineType.Cardinal 0).slopesX zigzag = [1, 0, 0, 1] := by
  obtain ⟨h0, hj, hl⟩ := qwtSlopesCardinal_getElem? points self.d_tension
    (qwtLocalEndpoints points self.d_type self.d_tension).1
    (qwtLocalEndpoints points self.d_type self.d_tension).2 hn
  have he := qwtLocalEndpoints_secant points self.d_type self.d_tension (by simp [hc])
    (by omega)
  rw [slopesX_cardinal self points hc hn]
  refine ⟨?_, ?_, ?_, ?_⟩
  · intro i a b hi ha hb
    have hlt : i + 1 < points.length := (List.getElem?_eq_some_iff.mp hb).1
    rw [hj i hi hlt, pAt_of_getElem? points _ a ha, pAt_of_getElem? points _ b hb]
  · intro a b ha hb
    rw [h0, he, pAt_of_getElem? points _ a ha, pAt_of_getElem? points _ b hb]
  · intro a b ha hb
    rw [hl, he, pAt_of_getElem? points _ a ha, pAt_of_getElem? points _ b hb]
  · simp [splineX, zigzag, QwtSplineLocal.slopesX, QwtSplineLocal.slopesClampedX,
      qwtLocalEndpoints, qwtSlopesCardinal, cardinalSlopesStep, qwtSlope, pAt, List.range']
    norm_num

/-- Witness of C5: the interior entry at index 1 for tension `1/4`. -/
theorem slopesX_cardinal_entries_witness :
    (splineX SplineType.Cardinal (1 / 4)).d_type = SplineType.Cardinal ∧
    3 ≤ zigzag.length ∧
    ((splineX SplineType.Cardinal (1 / 4)).slopesX zigzag)[1]? =
      some ((1 - (splineX SplineType.Cardinal (1 / 4)).d_tension) * qwtSlope ⟨0, 0⟩ ⟨2, 0⟩) :=
  ⟨rfl, by decide,
    (slopesX_cardinal_entries (splineX SplineType.Cardinal (1 / 4)) zigzag rfl
      (by decide)).1 1 ⟨0, 0⟩ ⟨2, 0⟩ (by decide) rfl rfl⟩

/-- Claim C6, the code at a failing input: the HarmonicMean slope vector on
`(0,0), (1,1), (2,3), (3,7)` at tension 0.  The harmonic means of the two interior
points are `4/3` and `8/3`, but the vector holds `8/3` at index 1 and the initial `0`
at index 2. -/
theorem slopesX_harmonicMean_fixed_index :
    (splineX SplineType.HarmonicMean 0).slopesX convexRun = [5 / 6, 8 / 3, 0, 14 / 3] ∧
    (1 - 0) * qwtHarmonicMean (1 - 0) (1 - 0) (2 - 1) (3 - 1) = 4 / 3 ∧
    (1 - 0) * qwtHarmonicMean (2 - 1) (3 - 1) (3 - 2) (7 - 3) = 8 / 3 := by
  refine ⟨?_, ?_, ?_⟩
  · simp [splineX, convexRun, QwtSplineLocal.slopesX, QwtSplineLocal.slopesClampedX,
      qwtLocalEndpoints, qwtSlopesHarmonicMean, harmonicSlopesStep, qwtHarmonicMean,
      qwtHarmonicMean2, qwtSlope, pAt, List.range']
    norm_num
  · norm_num [qwtHarmonicMean]
  · norm_num [qwtHarmonicMean]

/-- Claim C7, the code at a failing input: the HarmonicMean slope vector on
`(0,0), (1,1), (2,0), (3,-1)` at tension 0.  The x-coordinates increase strictly and
the y-increment changes sign at index 1, but the entry at index 1 is `-1`. -/
theorem slopesX_harmonicMean_peak :
    (splineX SplineType.HarmonicMean 0).slopesX peak = [3 / 2, -1, 0, -1] ∧
    List.Pairwise (fun a b => a.x < b.x) peak ∧
    0 < (pAt peak 1).y - (pAt peak 0).y ∧ (pAt peak 2).y - (pAt peak 1).y < 0 := by
  refine ⟨?_, ?_, ?_, ?_⟩
  · simp [splineX, peak, QwtSplineLocal.slopesX, QwtSplineLocal.slopesClampedX,
      qwtLocalEndpoints, qwtSlopesHarmonicMean, harmonicSlopesStep, qwtHarmonicMean,
      qwtHarmonicMean2, qwtSlope, pAt, List.range']
    norm_num
  · simp [peak]
    norm_num
  · norm_num [peak, pAt]
  · norm_num [peak, pAt]

/-- Claim C8, the code at a failing input: the Akima slope vector on
`(0,0), (1,1), (2,2)` at tension `1/2`.  The endpoint estimator returns `(1/2, 1/2)`;
the last entry of the vector is `1/2` but the first entry is `1/4`. -/
theorem slopesX_akima_first_entry :
    qwtLocalEndpoints line3 SplineType.Akima (1 / 2) = (1 / 2, 1 / 2) ∧
    (splineX SplineType.Akima (1 / 2)).slopesX line3 = [1 / 4, 1 / 2, 1 / 2] := by
  refine ⟨?_, ?_⟩
  · simp [line3, qwtLocalEndpoints, qwtSlope, pAt]
    norm_num
  · simp [splineX, line3, QwtSplineLocal.slopesX, QwtSplineLocal.slopesClampedX,
      qwtLocalEndpoints, qwtSlopesAkima, akimaSlopesStep, qwtAkima, qwtSlope, pAt,
      List.range']
    norm_num [abs_of_pos]

/-- Claim C9, amended: `slopesX` at tension `t` is `(1 - t)` times `slopesX` at tension 0
at every index for the variants other than Akima and for sequences of at most 2 points;
for Akima on longer sequences at the last index and at the interior indices
`2 ≤ i ≤ n - 3`. -/
theorem slopesX_tension_scaling (type : SplineType) (t : ℚ) (p p0 : Parametrization)
    (c c0 : QPolygonF → QPainterPath) (points : QPolygonF) (i : ℕ) (xt x0 : ℚ)
    (hside : type ≠ SplineType.Akima ∨ points.length ≤ 2 ∨ i + 1 = points.length ∨
      (2 ≤ i ∧ i + 3 ≤ points.length))
    (ht : (QwtSplineLocal.slopesX ⟨type, t, p, c⟩ points)[i]? = some xt)
    (h0 : (QwtSplineLocal.slopesX ⟨type, 0, p0, c0⟩ points)[i]? = some x0) :
    xt = (1 - t) * x0 := by
  obtain ⟨hs1, hs2⟩ := qwtLocalEndpoints_scale points type t
  by_cases h1 : points.length ≤ 1
  · rw [slopesX_short _ points h1] at ht
    simp at ht
  by_cases h2 : points.length = 2
  · rw [slopesX_two _ points h2] at ht h0
    simp only at ht h0
    rcases i with _ | _ | i
    · simp only [List.getElem?_cons_zero, Option.some.injEq] at ht h0
      rw [← ht, ← h0, hs1]
    · simp only [List.getElem?_cons_succ, List.getElem?_cons_zero, Option.some.injEq] at ht h0
      rw [← ht, ← h0, hs2]
    · simp at ht
  have h3 : 3 ≤ points.length := by omega
  have hi : i < points.length := by
    have := getElem?_lt_of_some _ i xt ht
    cases type
    · rwa [slopesX_cardinal _ points rfl h3, qwtSlopesCardinal_length] at this
    · rw [slopesX_unimplemented _ points (Or.inl rfl) h3] at ht; simp at ht
    · rwa [slopesX_akima _ points rfl h3, qwtSlopesAkima_length] at this
    · rwa [slopesX_harmonicMean _ points rfl h3, qwtSlopesHarmonicMean_length] at this
    · rw [slopesX_unimplemented _ points (Or.inr rfl) h3] at ht; simp at ht
  cases type with
  | Cardinal =>
    rw [slopesX_cardinal _ points rfl h3] at ht h0
    simp only at ht h0
    obtain ⟨a0, aj, al⟩ := qwtSlopesCardinal_getElem? points t
      (qwtLocalEndpoints points SplineType.Cardinal t).1
      (qwtLocalEndpoints points SplineType.Cardinal t).2 h3
    obtain ⟨b0, bj, bl⟩ := qwtSlopesCardinal_getElem? points 0
      (qwtLocalEndpoints points SplineType.Cardinal 0).1
      (qwtLocalEndpoints points SplineType.Cardinal 0).2 h3
    by_cases e0 : i = 0
    · subst e0
      rw [a0] at ht; rw [b0] at h0
      simp only [Option.some.injEq] at ht h0
      rw [← ht, ← h0, hs1]
    by_cases el : i = points.length - 1
    · subst el
      rw [al] at ht; rw [bl] at h0
      simp only [Option.some.injEq] at ht h0
      rw [← ht, ← h0, hs2]
    · rw [aj i (by omega) (by omega)] at ht
      rw [bj i (by omega) (by omega)] at h0
      simp only [Option.some.injEq] at ht h0
      rw [← ht, ← h0]; ring
  | ParabolicBlending =>
    rw [slopesX_unimplemented _ points (Or.inl rfl) h3] at ht; simp at ht
  | PChip =>
    rw [slopesX_unimplemented _ points (Or.inr rfl) h3] at ht; simp at ht
  | HarmonicMean =>
    rw [slopesX_harmonicMean _ points rfl h3] at ht h0
    simp only at ht h0
    obtain ⟨a0, a1, aj, al⟩ := qwtSlopesHarmonicMean_getElem? points t
      (qwtLocalEndpoints points SplineType.HarmonicMean t).1
      (qwtLocalEndpoints points SplineType.HarmonicMean t).2 h3
    obtain ⟨b0, b1, bj, bl⟩ := qwtSlopesHarmonicMean_getElem? points 0
      (qwtLocalEndpoints points SplineType.HarmonicMean 0).1
      (qwtLocalEndpoints points SplineType.HarmonicMean 0).2 h3
    by_cases e0 : i = 0
    · subst e0
      rw [a0] at ht; rw [b0] at h0
      simp only [Option.some.injEq] at ht h0
      rw [← ht, ← h0, hs1]
    by_cases el : i = points.length - 1
    · subst el
      rw [al] at ht; rw [bl] at h0
      simp only [Option.some.injEq] at ht h0
      rw [← ht, ← h0, hs2]
    by_cases e1 : i = 1
    · subst e1
      rw [a1] at ht; rw [b1] at h0
      simp only [Option.some.injEq] at ht h0
      rw [← ht, ← h0]; ring
    · rw [aj i (by omega) (by omega)] at ht
      rw [bj i (by omega) (by omega)] at h0
      simp only [Option.some.injEq] at ht h0
      rw [← ht, ← h0]; ring
  | Akima =>
    rw [slopesX_akima _ points rfl h3] at ht h0
    simp only at ht h0
    obtain ⟨-, aj, -, al⟩ := qwtSlopesAkima_getElem? points t
      (qwtLocalEndpoints points SplineType.Akima t).1
      (qwtLocalEndpoints points SplineType.Akima t).2 h3
    obtain ⟨-, bj, -, bl⟩ := qwtSlopesAkima_getElem? points 0
      (qwtLocalEndpoints points SplineType.Akima 0).1
      (qwtLocalEndpoints points SplineType.Akima 0).2 h3
    rcases hside with h | h | h | ⟨h, h'⟩
    · exact absurd rfl h
    · omega
    · have el : i = points.length - 1 := by omega
      subst el
      rw [al] at ht; rw [bl] at h0
      simp only [Option.some.injEq] at ht h0
      rw [← ht, ← h0, hs2]
    · have e1 : i ≠ 1 := by omega
      rw [aj i (by omega) (by omega)] at ht
      rw [bj i (by omega) (by omega)] at h0
      simp only [e1, if_false, Option.some.injEq] at ht h0
      rw [← ht, ← h0]; ring

/-- Witness of the amended C9: the Akima variant on five points, at index 2. -/
theorem slopesX_tension_scaling_witness :
    ((splineX SplineType.Akima (1 / 2)).slopesX run5)[2]? = some (11 / 10) ∧
    ((splineX SplineType.Akima 0).slopesX run5)[2]? = some (11 / 5) ∧
    (11 / 10 : ℚ) = (1 - 1 / 2) * (11 / 5) := by
  have ht : ((splineX SplineType.Akima (1 / 2)).slopesX run5)[2]? = some (11 / 10) := by
    simp [splineX, run5, QwtSplineLocal.slopesX, QwtSplineLocal.slopesClampedX,
      qwtLocalEndpoints, qwtSlopesAkima, akimaSlopesStep, qwtAkima, qwtSlope, pAt,
      List.range']
    norm_num [abs_of_pos, abs_of_neg]
  have h0 : ((splineX SplineType.Akima 0).slopesX run5)[2]? = some (11 / 5) := by
    simp [splineX, run5, QwtSplineLocal.slopesX, QwtSplineLocal.slopesClampedX,
      qwtLocalEndpoints, qwtSlopesAkima, akimaSlopesStep, qwtAkima, qwtSlope, pAt,
      List.range']
    norm_num [abs_of_pos, abs_of_neg]
  exact ⟨ht, h0, slopesX_tension_scaling SplineType.Akima (1 / 2)
    Parametrization.ParametrizationX Parametrization.ParametrizationX (fun _ => [])
    (fun _ => []) run5 2 (11 / 10) (11 / 5)
    (Or.inr (Or.inr (Or.inr ⟨by decide, by decide⟩))) ht h0⟩

/-- Claim C9 as stated fails: for the Akima variant on `(0,0), (1,1), (2,4)` the entry at
index 1 is `3/4` at tension `1/2` and `2` at tension 0. -/
theorem slopesX_tension_scaling_akima_fails :
    ¬ ∀ (i : ℕ) (xt x0 : ℚ),
      ((splineX SplineType.Akima (1 / 2)).slopesX bend)[i]? = some xt →
      ((splineX SplineType.Akima 0).slopesX bend)[i]? = some x0 →
      xt = (1 - 1 / 2) * x0 := by
  intro h
  have et : (splineX SplineType.Akima (1 / 2)).slopesX bend = [1 / 4, 3 / 4, 3 / 2] := by
    simp [splineX, bend, QwtSplineLocal.slopesX, QwtSplineLocal.slopesClampedX,
      qwtLocalEndpoints, qwtSlopesAkima, akimaSlopesStep, qwtAkima, qwtSlope, pAt,
      List.range']
    norm_num [abs_of_pos]
  have e0 : (splineX SplineType.Akima 0).slopesX bend = [1, 2, 3] := by
    simp [splineX, bend, QwtSplineLocal.slopesX, QwtSplineLocal.slopesClampedX,
      qwtLocalEndpoints, qwtSlopesAkima, akimaSlopesStep, qwtAkima, qwtSlope, pAt,
      List.range']
    norm_num
  have := h 1 (3 / 4) 2 (by rw [et]; rfl) (by rw [e0]; rfl)
  norm_num at this

/-- Claim C10: for every variant other than HarmonicMean and every tension `t`,
`qwtLocalEndpoints` returns `((1 - t) * qwtSlope p[0] p[1], (1 - t) * qwtSlope p[n-2] p[n-1])`
when `n ≥ 2` and `(0, 0)` when `n < 2`, where `qwtSlope a b` is `(b.y - a.y) / (b.x - a.x)`
and is 0 when `a.x = b.x`. -/
theorem qwtLocalEndpoints_non_harmonic (points : QPolygonF) (type : SplineType) (t : ℚ)
    (ht : type ≠ SplineType.HarmonicMean) :
    (2 ≤ points.length → ∀ p0 p1 pa pb, points[0]? = some p0 → points[1]? = some p1 →
      points[points.length - 2]? = some pa → points[points.length - 1]? = some pb →
      qwtLocalEndpoints points type t =
        ((1 - t) * qwtSlope p0 p1, (1 - t) * qwtSlope pa pb)) ∧
    (points.length < 2 → qwtLocalEndpoints points type t = (0, 0)) ∧
    (∀ a b : QPointF, (a.x ≠ b.x → qwtSlope a b = (b.y - a.y) / (b.x - a.x)) ∧
      (a.x = b.x → qwtSlope a b = 0)) := by
  refine ⟨?_, qwtLocalEndpoints_short points type t, ?_⟩
  · intro hn p0 p1 pa pb h0 h1 ha hb
    rw [qwtLocalEndpoints_secant points type t ht hn, pAt_of_getElem? points _ p0 h0,
      pAt_of_getElem? points _ p1 h1, pAt_of_getElem? points _ pa ha,
      pAt_of_getElem? points _ pb hb]
  · intro a b
    constructor
    · intro h
      have : b.x - a.x ≠ 0 := fun e => h (sub_eq_zero.mp e).symm
      simp [qwtSlope, this]
    · intro h
      simp [qwtSlope, h]

/-- Witness of C10: the Akima variant on four points, tension `1/4`. -/
theorem qwtLocalEndpoints_non_harmonic_witness :
    SplineType.Akima ≠ SplineType.HarmonicMean ∧ 2 ≤ zigzag.length ∧
    qwtLocalEndpoints zigzag SplineType.Akima (1 / 4) =
      ((1 - 1 / 4) * qwtSlope ⟨0, 0⟩ ⟨1, 1⟩, (1 - 1 / 4) * qwtSlope ⟨2, 0⟩ ⟨3, 1⟩) :=
  ⟨by decide, by decide,
    (qwtLocalEndpoints_non_harmonic zigzag SplineType.Akima (1 / 4) (by decide)).1
      (by decide) _ _ _ _ rfl rfl rfl rfl⟩

/-- Claim C11: for the HarmonicMean variant, every tension `t` and every point sequence
of length `n ≥ 3`, `qwtLocalEndpoints` returns
`slopeStart = (1 - t) * (1.5 * s1 - 0.5 * hm(s1, s2))` and
`slopeEnd = (1 - t) * (1.5 * s4 - 0.5 * hm(s3, s4))`, where `s1, s2` are the secant slopes
of the first three points, `s3, s4` those of the last three, and `hm(a, b)` is
`2/(1/a + 1/b)` when `a` and `b` are nonzero with the same sign and `0` otherwise. -/
theorem qwtLocalEndpoints_harmonicMean (points : QPolygonF) (t : ℚ) (hn : 3 ≤ points.length)
    (p0 p1 p2 pa pb pc : QPointF)
    (h0 : points[0]? = some p0) (h1 : points[1]? = some p1) (h2 : points[2]? = some p2)
    (ha : points[points.length - 3]? = some pa) (hb : points[points.length - 2]? = some pb)
    (hc : points[points.length - 1]? = some pc) :
    qwtLocalEndpoints points SplineType.HarmonicMean t =
      ((1 - t) * (3 / 2 * qwtSlope p0 p1 -
          1 / 2 * harmonicMeanSpec (qwtSlope p0 p1) (qwtSlope p1 p2)),
       (1 - t) * (3 / 2 * qwtSlope pb pc -
          1 / 2 * harmonicMeanSpec (qwtSlope pa pb) (qwtSlope pb pc))) := by
  simp only [qwtLocalEndpoints, if_true, ge_iff_le, hn, qwtHarmonicMean2_eq_spec,
    pAt_of_getElem? points _ _ h0, pAt_of_getElem? points _ _ h1,
    pAt_of_getElem? points _ _ h2, pAt_of_getElem? points _ _ ha,
    pAt_of_getElem? points _ _ hb, pAt_of_getElem? points _ _ hc]
  rw [mul_comm (1 - t), mul_comm (1 - t)]

/-- Witness of C11: the four points `(0,0), (1,1), (2,3), (3,7)` at tension `1/4`. -/
theorem qwtLocalEndpoints_harmonicMean_witness :
    3 ≤ convexRun.length ∧
    qwtLocalEndpoints convexRun SplineType.HarmonicMean (1 / 4) =
      ((1 - 1 / 4) * (3 / 2 * qwtSlope ⟨0, 0⟩ ⟨1, 1⟩ -
          1 / 2 * harmonicMeanSpec (qwtSlope ⟨0, 0⟩ ⟨1, 1⟩) (qwtSlope ⟨1, 1⟩ ⟨2, 3⟩)),
       (1 - 1 / 4) * (3 / 2 * qwtSlope ⟨2, 3⟩ ⟨3, 7⟩ -
          1 / 2 * harmonicMeanSpec (qwtSlope ⟨1, 1⟩ ⟨2, 3⟩) (qwtSlope ⟨2, 3⟩ ⟨3, 7⟩))) :=
  ⟨by decide,
    qwtLocalEndpoints_harmonicMean convexRun (1 / 4) (by decide) _ _ _ _ _ _
      rfl rfl rfl rfl rfl rfl⟩

/-- Claim C12, amended: for every variant, every tension `t` and every 2-point sequence
`[p0, p1]`, `slopesX` returns `[e, e]` and, under x-parametrization, `pathP` returns a
move to `p0` followed by exactly one cubic segment built from `p0`, `p1` and the slopes
`e`, `e` by the Hermite-to-Bezier rule, where `e = (1 - t) * qwtSlope p0 p1` for every
variant other than HarmonicMean and `e = 0` for HarmonicMean. -/
theorem two_points (self : QwtSplineLocal) (p0 p1 : QPointF)
    (hx : self.parametrization = Parametrization.ParametrizationX) :
    self.slopesX [p0, p1] =
      [if self.d_type = SplineType.HarmonicMean then 0
        else (1 - self.d_tension) * qwtSlope p0 p1,
       if self.d_type = SplineType.HarmonicMean then 0
        else (1 - self.d_tension) * qwtSlope p0 p1] ∧
    self.pathP [p0, p1] =
      [PathElement.moveTo p0,
       hermiteSegment p0
        (if self.d_type = SplineType.HarmonicMean then 0
          else (1 - self.d_tension) * qwtSlope p0 p1) p1
        (if self.d_type = SplineType.HarmonicMean then 0
          else (1 - self.d_tension) * qwtSlope p0 p1)] := by
  have he : qwtLocalEndpoints [p0, p1] self.d_type self.d_tension =
      (if self.d_type = SplineType.HarmonicMean then 0
        else (1 - self.d_tension) * qwtSlope p0 p1,
       if self.d_type = SplineType.HarmonicMean then 0
        else (1 - self.d_tension) * qwtSlope p0 p1) := by
    by_cases h : self.d_type = SplineType.HarmonicMean
    · simp [qwtLocalEndpoints, h]
    · simp [qwtLocalEndpoints, h, pAt, mul_comm]
  constructor
  · rw [slopesX_two self [p0, p1] rfl, he]
  · rw [pathP_x self [p0, p1] hx, pathClampedX_two self [p0, p1] _ _ rfl, he]
    rfl

/-- Witness of the amended C12: the Akima variant at tension `1/4` on `(0,0), (1,1)`. -/
theorem two_points_witness :
    (splineX SplineType.Akima (1 / 4)).parametrization = Parametrization.ParametrizationX ∧
    (splineX SplineType.Akima (1 / 4)).slopesX [⟨0, 0⟩, ⟨1, 1⟩] =
      [if (splineX SplineType.Akima (1 / 4)).d_type = SplineType.HarmonicMean then 0
        else (1 - (splineX SplineType.Akima (1 / 4)).d_tension) * qwtSlope ⟨0, 0⟩ ⟨1, 1⟩,
       if (splineX SplineType.Akima (1 / 4)).d_type = SplineType.HarmonicMean then 0
        else (1 - (splineX SplineType.Akima (1 / 4)).d_tension) * qwtSlope ⟨0, 0⟩ ⟨1, 1⟩] :=
  ⟨rfl, (two_points (splineX SplineType.Akima (1 / 4)) ⟨0, 0⟩ ⟨1, 1⟩ rfl).1⟩

/-- Claim C12 as stated fails: for the HarmonicMean variant at tension 0 on
`(0,0), (1,1)` the secant slope is 1 but `slopesX` returns `[0, 0]`. -/
theorem two_points_harmonicMean_fails :
    (splineX SplineType.HarmonicMean 0).slopesX unitStep = [0, 0] ∧
    (1 - 0) * qwtSlope ⟨0, 0⟩ ⟨1, 1⟩ = 1 ∧
    (splineX SplineType.HarmonicMean 0).slopesX unitStep ≠
      [(1 - 0) * qwtSlope ⟨0, 0⟩ ⟨1, 1⟩, (1 - 0) * qwtSlope ⟨0, 0⟩ ⟨1, 1⟩] := by
  have e1 : (splineX SplineType.HarmonicMean 0).slopesX unitStep = [0, 0] := by
    simp [splineX, unitStep, QwtSplineLocal.slopesX, QwtSplineLocal.slopesClampedX,
      qwtLocalEndpoints]
  have e2 : (1 - 0) * qwtSlope ⟨0, 0⟩ ⟨1, 1⟩ = 1 := by
    norm_num [qwtSlope]
  refine ⟨e1, e2, ?_⟩
  rw [e1, e2]
  intro h
  have h' := (List.cons.inj h).1
  norm_num at h'

/-- Claim C13: for every variant and tension, on the empty point sequence `pathP`
returns the empty path and `slopesX` the empty vector; on a one-point sequence `[p]`
`pathP` returns the path consisting only of a move to `p` and `slopesX` the empty
vector. -/
theorem degenerate_sizes (self : QwtSplineLocal) (p : QPointF)
    (hx : self.parametrization = Parametrization.ParametrizationX) :
    self.pathP [] = [] ∧ self.slopesX [] = [] ∧
    self.pathP [p] = [PathElement.moveTo p] ∧ self.slopesX [p] = [] := by
  refine ⟨?_, ?_, ?_, ?_⟩
  · simp [QwtSplineLocal.pathP, hx, QwtSplineLocal.pathClampedX]
  · simp [QwtSplineLocal.slopesX, QwtSplineLocal.slopesClampedX]
  · simp [QwtSplineLocal.pathP, hx, QwtSplineLocal.pathClampedX, QPainterPath.moveTo, pAt]
  · simp [QwtSplineLocal.slopesX, QwtSplineLocal.slopesClampedX]

/-- Witness of C13: the PChip variant and the point `(2, 5)`. -/
theorem degenerate_sizes_witness :
    (splineX SplineType.PChip (1 / 2)).parametrization = Parametrization.ParametrizationX ∧
    (splineX SplineType.PChip (1 / 2)).pathP [] = [] ∧
    (splineX SplineType.PChip (1 / 2)).slopesX [] = [] ∧
    (splineX SplineType.PChip (1 / 2)).pathP [⟨2, 5⟩] = [PathElement.moveTo ⟨2, 5⟩] ∧
    (splineX SplineType.PChip (1 / 2)).slopesX [⟨2, 5⟩] = [] :=
  ⟨rfl, degenerate_sizes (splineX SplineType.PChip (1 / 2)) ⟨2, 5⟩ rfl⟩

/-- Claim C14, amended: for the unimplemented variants ParabolicBlending and PChip, every
tension and every point sequence of length other than 2, `slopesX` returns the empty
vector and, under x-parametrization, `pathP` returns a path with no cubic segment (the
empty path when the length is at least 3). -/
theorem unimplemented_empty (self : QwtSplineLocal) (points : QPolygonF)
    (hv : self.d_type = SplineType.ParabolicBlending ∨ self.d_type = SplineType.PChip)
    (hx : self.parametrization = Parametrization.ParametrizationX)
    (hn : points.length ≠ 2) :
    self.slopesX points = [] ∧
    (∀ c1 c2 e, PathElement.cubicTo c1 c2 e ∉ self.pathP points) ∧
    (3 ≤ points.length → self.pathP points = []) := by
  have h3 : 3 ≤ points.length → self.pathP points = [] := fun h => by
    rw [pathP_x self points hx, pathClampedX_unimplemented self points _ _ hv h]
  by_cases h1 : points.length ≤ 1
  · refine ⟨slopesX_short self points h1, ?_, h3⟩
    intro c1 c2 e
    rw [pathP_x self points hx]
    match points, h1 with
    | [], _ => simp [QwtSplineLocal.pathClampedX]
    | [p], _ => simp [QwtSplineLocal.pathClampedX, QPainterPath.moveTo]
  · have h : 3 ≤ points.length := by omega
    refine ⟨slopesX_unimplemented self points hv h, ?_, h3⟩
    intro c1 c2 e
    rw [h3 h]
    exact List.not_mem_nil _

/-- Witness of the amended C14: the PChip variant on four points. -/
theorem unimplemented_empty_witness :
    ((splineX SplineType.PChip (1 / 2)).d_type = SplineType.ParabolicBlending ∨
      (splineX SplineType.PChip (1 / 2)).d_type = SplineType.PChip) ∧
    (splineX SplineType.PChip (1 / 2)).parametrization = Parametrization.ParametrizationX ∧
    zigzag.length ≠ 2 ∧
    (splineX SplineType.PChip (1 / 2)).slopesX zigzag = [] ∧
    (∀ c1 c2 e, PathElement.cubicTo c1 c2 e ∉ (splineX SplineType.PChip (1 / 2)).pathP zigzag) ∧
    (3 ≤ zigzag.length → (splineX SplineType.PChip (1 / 2)).pathP zigzag = []) :=
  ⟨Or.inr rfl, rfl, by decide,
    unimplemented_empty (splineX SplineType.PChip (1 / 2)) zigzag (Or.inr rfl) rfl
      (by decide)⟩

/-- Claim C14 as stated fails: for the ParabolicBlending variant at tension 0 on
`(0,0), (1,1)` the slope vector is `[1, 1]` and the path holds a cubic segment. -/
theorem unimplemented_two_points_fails :
    (splineX SplineType.ParabolicBlending 0).slopesX unitStep = [1, 1] ∧
    (splineX SplineType.ParabolicBlending 0).slopesX unitStep ≠ [] ∧
    PathElement.cubicTo ⟨1 / 3, 1 / 3⟩ ⟨2 / 3, 2 / 3⟩ ⟨1, 1⟩ ∈
      (splineX SplineType.ParabolicBlending 0).pathP unitStep := by
  have e1 : (splineX SplineType.ParabolicBlending 0).slopesX unitStep = [1, 1] := by
    simp [splineX, unitStep, QwtSplineLocal.slopesX, QwtSplineLocal.slopesClampedX,
      qwtLocalEndpoints, qwtSlope, pAt]
  refine ⟨e1, by rw [e1]; exact List.cons_ne_nil _ _, ?_⟩
  simp [splineX, unitStep, QwtSplineLocal.pathP, QwtSplineLocal.pathClampedX,
    qwtLocalEndpoints, qwtSlope, pAt, qwtCubicToP, QPainterPath.cubicTo, QPainterPath.moveTo]
  norm_num

/-- Claim C15, the code at a failing input: the HarmonicMean variant at tension 0 on
`(0,0), (0,1), (0,2)`.  The entry of `slopesX` at index 1 is computed by the call
`qwtHarmonicMean 0 1 0 1`, whose divisions have the divisors `1`, `1` and `0`: the
divisor of `2.0` is `0/1 + 0/1 = 0`. -/
theorem harmonicMean_zero_divisor :
    ((splineX SplineType.HarmonicMean 0).slopesX vertical)[1]? =
      some ((1 - 0) * qwtHarmonicMean
        ((pAt vertical 1).x - (pAt vertical 0).x) ((pAt vertical 1).y - (pAt vertical 0).y)
        ((pAt vertical 2).x - (pAt vertical 1).x) ((pAt vertical 2).y - (pAt vertical 1).y)) ∧
    qwtHarmonicMeanDivisors
        ((pAt vertical 1).x - (pAt vertical 0).x) ((pAt vertical 1).y - (pAt vertical 0).y)
        ((pAt vertical 2).x - (pAt vertical 1).x) ((pAt vertical 2).y - (pAt vertical 1).y) =
      [1, 1, 0] ∧
    (0 : ℚ) ∈ qwtHarmonicMeanDivisors
        ((pAt vertical 1).x - (pAt vertical 0).x) ((pAt vertical 1).y - (pAt vertical 0).y)
        ((pAt vertical 2).x - (pAt vertical 1).x) ((pAt vertical 2).y - (pAt vertical 1).y) := by
  have hd : qwtHarmonicMeanDivisors
      ((pAt vertical 1).x - (pAt vertical 0).x) ((pAt vertical 1).y - (pAt vertical 0).y)
      ((pAt vertical 2).x - (pAt vertical 1).x) ((pAt vertical 2).y - (pAt vertical 1).y) =
      [1, 1, 0] := by
    norm_num [qwtHarmonicMeanDivisors, vertical, pAt]
  refine ⟨?_, hd, by rw [hd]; simp⟩
  have h := (qwtSlopesHarmonicMean_getElem? vertical 0
    (qwtLocalEndpoints vertical SplineType.HarmonicMean 0).1
    (qwtLocalEndpoints vertical SplineType.HarmonicMean 0).2 (by decide)).2.1
  rw [slopesX_harmonicMean (splineX SplineType.HarmonicMean 0) vertical rfl (by decide)]
  exact h

/-- Claim C16: for the Akima variant at tension 0 and every point sequence of length
`n ≥ 3` whose consecutive secant slopes are all equal to one value `c`, `slopesX`
returns the vector whose `n` entries all equal `c`. -/
theorem slopesX_akima_collinear (self : QwtSplineLocal) (points : QPolygonF) (c : ℚ)
    (hv : self.d_type = SplineType.Akima) (ht : self.d_tension = 0)
    (hn : 3 ≤ points.length)
    (hc : ∀ k, k + 1 < points.length → secantAt points k = c) :
    self.slopesX points = List.replicate points.length c := by
  have he : qwtLocalEndpoints points self.d_type self.d_tension = (c, c) := by
    rw [qwtLocalEndpoints_secant points self.d_type self.d_tension (by simp [hv]) (by omega),
      ht]
    have e0 := hc 0 (by omega)
    have e1 := hc (points.length - 2) (by omega)
    have e2 : points.length - 2 + 1 = points.length - 1 := by omega
    simp only [secantAt, e2, Nat.zero_add] at e0 e1
    rw [e0, e1]
    norm_num
  obtain ⟨m0, mj, mp, ml⟩ := qwtSlopesAkima_getElem? points 0 c c hn
  rw [slopesX_akima self points hv hn, he, ht]
  apply List.ext_getElem?
  intro i
  by_cases hi : i < points.length
  · rw [List.getElem?_replicate_of_lt hi]
    by_cases e0 : i = 0
    · subst e0; rw [m0]; norm_num
    by_cases el : i = points.length - 1
    · subst el; rw [ml]
    by_cases ep : i = points.length - 2
    · subst ep
      rw [mp, hc (points.length - 3) (by omega), hc (points.length - 2) (by omega)]
      have e4 : (if points.length = 3 then c else secantAt points (points.length - 4)) = c := by
        by_cases h3 : points.length = 3
        · rw [if_pos h3]
        · rw [if_neg h3]; exact hc _ (by omega)
      rw [e4, qwtAkima_self]; norm_num
    · rw [mj i (by omega) (by omega), hc (i - 1) (by omega), hc i (by omega),
        hc (i + 1) (by omega)]
      have e4 : (if i = 1 then c else secantAt points (i - 2)) = c := by
        by_cases h1 : i = 1
        · rw [if_pos h1]
        · rw [if_neg h1]; exact hc _ (by omega)
      rw [e4, qwtAkima_self]; norm_num
  · rw [List.getElem?_eq_none (by rw [qwtSlopesAkima_length]; omega),
      List.getElem?_eq_none (by simp; omega)]

/-- Witness of C16: the four collinear points `(0,0), (1,2), (2,4), (3,6)`, `c = 2`. -/
theorem slopesX_akima_collinear_witness :
    (splineX SplineType.Akima 0).d_type = SplineType.Akima ∧
    (splineX SplineType.Akima 0).d_tension = 0 ∧ 3 ≤ line4.length ∧
    (∀ k, k + 1 < line4.length → secantAt line4 k = 2) ∧
    (splineX SplineType.Akima 0).slopesX line4 = [2, 2, 2, 2] := by
  have hc : ∀ k, k + 1 < line4.length → secantAt line4 k = 2 := by
    intro k hk
    have hk3 : k < 3 := by
      simp only [line4, List.length_cons, List.length_nil] at hk
      omega
    interval_cases k <;> norm_num [secantAt, line4, pAt, qwtSlope]
  exact ⟨rfl, rfl, by decide, hc,
    slopesX_akima_collinear (splineX SplineType.Akima 0) line4 2 rfl rfl (by decide) hc⟩

/-- Claim C17, amended: with tension 1, for each implemented variant under
x-parametrization and every point sequence of length `n ≥ 2` on which the HarmonicMean
variant does not divide by zero, `pathP` is the Hermite chain with all slopes 0: the
cubic segment from `p[i]` to `p[i+1]` has the control points `(p[i].x + dx, p[i].y)` and
`(p[i+1].x - dx, p[i+1].y)` with `dx = (p[i+1].x - p[i].x)/3`, and each of them lies on
the straight line through `p[i]` and `p[i+1]` exactly when `p[i].y = p[i+1].y` or
`p[i].x = p[i+1].x`. -/
theorem pathP_tension_one (self : QwtSplineLocal) (points : QPolygonF)
    (himpl : self.d_type = SplineType.Cardinal ∨ self.d_type = SplineType.Akima ∨
      self.d_type = SplineType.HarmonicMean)
    (hx : self.parametrization = Parametrization.ParametrizationX)
    (ht : self.d_tension = 1) (hn : 2 ≤ points.length)
    (hfin : self.d_type = SplineType.HarmonicMean → HarmonicMeanFinite points) :
    self.pathP points = hermiteChain points (List.replicate points.length 0) ∧
    ∀ p1 p2 : QPointF,
      hermiteSegment p1 0 p2 0 =
        PathElement.cubicTo ⟨p1.x + (p2.x - p1.x) / 3, p1.y⟩
          ⟨p2.x - (p2.x - p1.x) / 3, p2.y⟩ p2 ∧
      (onLine p1 p2 ⟨p1.x + (p2.x - p1.x) / 3, p1.y⟩ ↔ (p1.y = p2.y ∨ p1.x = p2.x)) ∧
      (onLine p1 p2 ⟨p2.x - (p2.x - p1.x) / 3, p2.y⟩ ↔ (p1.y = p2.y ∨ p1.x = p2.x)) :=
  ⟨pathP_tension_one_chain self points himpl hx ht hn hfin,
    fun p1 p2 => ⟨hermiteSegment_flat p1 p2, onLine_flat_first p1 p2, onLine_flat_second p1 p2⟩⟩

/-- Witness of the amended C17: the HarmonicMean variant at tension 1 on
`(0,0), (1,1), (2,3), (3,7)`, whose x-coordinates increase strictly. -/
theorem pathP_tension_one_witness :
    ((splineX SplineType.HarmonicMean 1).d_type = SplineType.Cardinal ∨
      (splineX SplineType.HarmonicMean 1).d_type = SplineType.Akima ∨
      (splineX SplineType.HarmonicMean 1).d_type = SplineType.HarmonicMean) ∧
    (splineX SplineType.HarmonicMean 1).parametrization = Parametrization.ParametrizationX ∧
    (splineX SplineType.HarmonicMean 1).d_tension = 1 ∧ 2 ≤ convexRun.length ∧
    HarmonicMeanFinite convexRun ∧
    (splineX SplineType.HarmonicMean 1).pathP convexRun =
      hermiteChain convexRun (List.replicate convexRun.length 0) := by
  have hinc : ∀ i, i + 1 < convexRun.length →
      (pAt convexRun i).x < (pAt convexRun (i + 1)).x := by
    intro i hi
    have hi3 : i < 3 := by
      simp only [convexRun, List.length_cons, List.length_nil] at hi
      omega
    interval_cases i <;> norm_num [convexRun, pAt]
  have hfin := harmonicMeanFinite_of_increasing convexRun hinc
  exact ⟨Or.inr (Or.inr rfl), rfl, rfl, by decide, hfin,
    (pathP_tension_one (splineX SplineType.HarmonicMean 1) convexRun (Or.inr (Or.inr rfl))
      rfl rfl (by decide) (fun _ => hfin)).1⟩

/-- Claim C17 as stated fails: for the Cardinal variant at tension 1 on `(0,0), (3,3)`
the only cubic segment has the control points `(1,0)` and `(2,3)`, and neither lies on
the straight line through `(0,0)` and `(3,3)`. -/
theorem pathP_tension_one_not_straight :
    (splineX SplineType.Cardinal 1).pathP diagonal =
      [PathElement.moveTo ⟨0, 0⟩, PathElement.cubicTo ⟨1, 0⟩ ⟨2, 3⟩ ⟨3, 3⟩] ∧
    ¬ onLine ⟨0, 0⟩ ⟨3, 3⟩ ⟨1, 0⟩ ∧ ¬ onLine ⟨0, 0⟩ ⟨3, 3⟩ ⟨2, 3⟩ := by
  refine ⟨?_, ?_, ?_⟩
  · simp [splineX, diagonal, QwtSplineLocal.pathP, QwtSplineLocal.pathClampedX,
      qwtLocalEndpoints, qwtSlope, pAt, qwtCubicToP, QPainterPath.cubicTo,
      QPainterPath.moveTo]
    norm_num
  · norm_num [onLine]
  · norm_num [onLine]

/-- Claim C18: for the HarmonicMean variant under x-parametrization, every tension `t`
and every point sequence of length `n ≥ 3`, the path returned by `pathP` equals the
generic Hermite-to-Bezier chain for the slopes `m[0] = slopeStart`, `m[n-1] = slopeEnd`
and `m[i] = (1 - t) * H(p[i] - p[i-1], p[i+1] - p[i])` at every interior index, where
`(slopeStart, slopeEnd)` is the result of `qwtLocalEndpoints` and `H` is the 4-argument
`qwtHarmonicMean`. -/
theorem pathP_harmonicMean_chain (self : QwtSplineLocal) (points : QPolygonF)
    (hv : self.d_type = SplineType.HarmonicMean)
    (hx : self.parametrization = Parametrization.ParametrizationX)
    (hn : 3 ≤ points.length) :
    self.pathP points = hermiteChain points
      (harmonicMeanSlopesSpec points self.d_tension
        (qwtLocalEndpoints points self.d_type self.d_tension).1
        (qwtLocalEndpoints points self.d_type self.d_tension).2) := by
  rw [pathP_x self points hx, pathClampedX_harmonicMean self points _ _ hv hn,
    qwtPathHarmonicMean_eq_chain points _ _ _ hn]

/-- Witness of C18: tension `1/2` on `(0,0), (1,1), (2,3), (3,7)`. -/
theorem pathP_harmonicMean_chain_witness :
    (splineX SplineType.HarmonicMean (1 / 2)).d_type = SplineType.HarmonicMean ∧
    (splineX SplineType.HarmonicMean (1 / 2)).parametrization =
      Parametrization.ParametrizationX ∧
    3 ≤ convexRun.length ∧
    (splineX SplineType.HarmonicMean (1 / 2)).pathP convexRun =
      hermiteChain convexRun
        (harmonicMeanSlopesSpec convexRun (1 / 2)
          (qwtLocalEndpoints convexRun SplineType.HarmonicMean (1 / 2)).1
          (qwtLocalEndpoints convexRun SplineType.HarmonicMean (1 / 2)).2) :=
  ⟨rfl, rfl, by decide,
    pathP_harmonicMean_chain (splineX SplineType.HarmonicMean (1 / 2)) convexRun rfl rfl
      (by decide)⟩

/-- Claim C19: for the Cardinal and Akima variants under x-parametrization, every
tension and every point sequence of length `n ≥ 2`, `pathP` equals the path obtained by
moving to `p[0]` and then applying `qwtCubicToP( p[i], m[i], p[i+1], m[i+1] )` for each
`i` in `0..n-2`, with `m = slopesX` for the same variant and tension. -/
theorem pathP_eq_cubicChain (self : QwtSplineLocal) (points : QPolygonF)
    (hv : self.d_type = SplineType.Cardinal ∨ self.d_type = SplineType.Akima)
    (hx : self.parametrization = Parametrization.ParametrizationX)
    (hn : 2 ≤ points.length) :
    self.pathP points = cubicChain points (self.slopesX points) := by
  rw [cubicChain_eq_hermiteChain, pathP_x self points hx]
  by_cases h2 : points.length = 2
  · rw [pathClampedX_two self points _ _ h2, slopesX_two self points h2,
      hermiteChain_two points _ _ h2]
  have h3 : 3 ≤ points.length := by omega
  rcases hv with hc | hc
  · rw [pathClampedX_cardinal self points _ _ hc h3, slopesX_cardinal self points hc h3,
      qwtPathCardinal_eq_chain points _ _ _ h3]
  · rw [pathClampedX_akima self points _ _ hc h3, slopesX_akima self points hc h3,
      qwtPathAkima_eq_chain points _ _ _ h3]

/-- Witness of C19: the Akima variant at tension `1/2` on five points. -/
theorem pathP_eq_cubicChain_witness :
    ((splineX SplineType.Akima (1 / 2)).d_type = SplineType.Cardinal ∨
      (splineX SplineType.Akima (1 / 2)).d_type = SplineType.Akima) ∧
    (splineX SplineType.Akima (1 / 2)).parametrization = Parametrization.ParametrizationX ∧
    2 ≤ run5.length ∧
    (splineX SplineType.Akima (1 / 2)).pathP run5 =
      cubicChain run5 ((splineX SplineType.Akima (1 / 2)).slopesX run5) :=
  ⟨Or.inr rfl, rfl, by decide,
    pathP_eq_cubicChain (splineX SplineType.Akima (1 / 2)) run5 (Or.inr rfl) rfl (by decide)⟩

/-- Claim C20: for all `s1, s2, s3, s4`, `qwtAkima s1 s2 s3 s4` lies between the two
middle slopes, `min s2 s3 ≤ qwtAkima s1 s2 s3 s4 ≤ max s2 s3`, and the denominator
`|s2 - s1| + |s4 - s3|` is nonzero whenever the weighted branch is taken. -/
theorem qwtAkima_between (s1 s2 s3 s4 : ℚ) :
    min s2 s3 ≤ qwtAkima s1 s2 s3 s4 ∧ qwtAkima s1 s2 s3 s4 ≤ max s2 s3 ∧
    (¬ (s1 = s2 ∧ s3 = s4) → |s2 - s1| + |s4 - s3| ≠ 0) := by
  have hmin2 : min s2 s3 ≤ s2 := min_le_left _ _
  have hmin3 : min s2 s3 ≤ s3 := min_le_right _ _
  have hmax2 : s2 ≤ max s2 s3 := le_max_left _ _
  have hmax3 : s3 ≤ max s2 s3 := le_max_right _ _
  refine ⟨?_, ?_, fun h => ne_of_gt (qwtAkima_denominator_pos s1 s2 s3 s4 h)⟩
  · unfold qwtAkima
    by_cases h : s1 = s2 ∧ s3 = s4
    · rw [if_pos h]; linarith
    · rw [if_neg h]
      have hd := qwtAkima_denominator_pos s1 s2 s3 s4 h
      have w1 : 0 ≤ |s2 - s1| := abs_nonneg _
      have w2 : 0 ≤ |s4 - s3| := abs_nonneg _
      rw [le_div_iff₀ hd]
      nlinarith [mul_le_mul_of_nonneg_right hmin2 w2, mul_le_mul_of_nonneg_right hmin3 w1]
  · unfold qwtAkima
    by_cases h : s1 = s2 ∧ s3 = s4
    · rw [if_pos h]; linarith
    · rw [if_neg h]
      have hd := qwtAkima_denominator_pos s1 s2 s3 s4 h
      have w1 : 0 ≤ |s2 - s1| := abs_nonneg _
      have w2 : 0 ≤ |s4 - s3| := abs_nonneg _
      rw [div_le_iff₀ hd]
      nlinarith [mul_le_mul_of_nonneg_right hmax2 w2, mul_le_mul_of_nonneg_right hmax3 w1]

/-- Witness of C20: the slopes `1, 2, 3, 5`. -/
theorem qwtAkima_between_witness :
    min (2 : ℚ) 3 ≤ qwtAkima 1 2 3 5 ∧ qwtAkima 1 2 3 5 ≤ max 2 3 ∧
    (¬ ((1 : ℚ) = 2 ∧ (3 : ℚ) = 5) → |(2 : ℚ) - 1| + |(5 : ℚ) - 3| ≠ 0) :=
  qwtAkima_between 1 2 3 5

end Qwt
